import Mathlib

/-!
Verification of the elevator dispatch and motion core of this repository.

The definitions below are a shallow embedding of the classes in
src/outputs/opencode_big-pickle/Elevator.ts and Building.ts.  JavaScript
Set objects are modelled as insertion-ordered duplicate-free lists (a JS
Set iterates in insertion order, so Array.from(set)[0] is the earliest
inserted element).  JS numbers holding floor indices are modelled as Int.
Array.prototype.forEach over a list that the loop body may splice is
modelled index-by-index with the length captured at loop entry, matching
the ECMAScript semantics (an element shifted below the cursor is skipped).
-/

namespace Elev

inductive Direction where
  | up
  | down
  | idle
  deriving DecidableEq, Repr

inductive ElevatorState where
  | idle
  | movingUp
  | movingDown
  deriving DecidableEq, Repr

structure FloorRequest where
  floor : Int
  direction : Direction
  deriving DecidableEq, Repr

/-- Floor class of the repository (the second file concatenated into
src/unnamed/part_002, the Floor.ts that Building.ts imports): an integer
floor number and the two hall-button flags.  The DOM handles (element,
upButton, downButton) and updateButtonVisuals are presentation state outside
the dispatch core and are not modelled. -/
structure Floor where
  number : Int
  upButtonPressed : Bool
  downButtonPressed : Bool
  deriving DecidableEq, Repr

/-- Floor.pressUpButton of the source: the press is refused at the hardcoded
top floor 9 (`if (this.number !== 9)`). -/
def Floor.pressUpButton (f : Floor) : Floor :=
  if f.number ≠ 9 then { f with upButtonPressed := true } else f

/-- Floor.pressDownButton of the source: the press is refused at the ground
floor 0 (`if (this.number !== 0)`). -/
def Floor.pressDownButton (f : Floor) : Floor :=
  if f.number ≠ 0 then { f with downButtonPressed := true } else f

/-- Floor.releaseUpButton of the source: unconditional. -/
def Floor.releaseUpButton (f : Floor) : Floor := { f with upButtonPressed := false }

/-- Floor.releaseDownButton of the source: unconditional. -/
def Floor.releaseDownButton (f : Floor) : Floor := { f with downButtonPressed := false }

theorem pressUpButton_number (f : Floor) : (f.pressUpButton).number = f.number := by
  unfold Floor.pressUpButton
  split <;> rfl

theorem pressDownButton_number (f : Floor) : (f.pressDownButton).number = f.number := by
  unfold Floor.pressDownButton
  split <;> rfl

structure Elevator where
  id : Nat
  currentFloor : Int
  destinationFloors : List Int
  state : ElevatorState
  direction : Direction
  deriving DecidableEq, Repr

/-- Constructor of Elevator.ts: starts at floor 0, no destinations, idle. -/
def Elevator.init (i : Nat) : Elevator :=
  { id := i, currentFloor := 0, destinationFloors := [],
    state := ElevatorState.idle, direction := Direction.idle }

/-- Minimum of a list, mirroring Math.min spread over a non-empty array. -/
def listMin {α : Type} [LinearOrder α] : List α → Option α
  | [] => none
  | x :: xs => some (xs.foldl min x)

/-- Maximum of a list, mirroring Math.max spread over a non-empty array. -/
def listMax {α : Type} [LinearOrder α] : List α → Option α
  | [] => none
  | x :: xs => some (xs.foldl max x)

/-- Insertion into a JS Set: appends when absent, no-op when present. -/
def setAdd (l : List Int) (f : Int) : List Int :=
  if f ∈ l then l else l ++ [f]

/-- Elevator.getNextDestination of Elevator.ts. -/
def Elevator.getNextDestination (e : Elevator) : Option Int :=
  if e.destinationFloors.isEmpty then none
  else
    let viaDir : Option Int :=
      if e.direction = Direction.up then
        listMin (e.destinationFloors.filter (fun f => decide (e.currentFloor < f)))
      else if e.direction = Direction.down then
        listMax (e.destinationFloors.filter (fun f => decide (f < e.currentFloor)))
      else none
    match viaDir with
    | some f => some f
    | none => e.destinationFloors.head?

/-- Elevator.updateDirection of Elevator.ts. -/
def Elevator.updateDirection (e : Elevator) : Elevator :=
  if e.destinationFloors.isEmpty then
    { e with state := ElevatorState.idle, direction := Direction.idle }
  else
    match e.getNextDestination with
    | none => { e with state := ElevatorState.idle, direction := Direction.idle }
    | some nd =>
      if e.currentFloor < nd then
        { e with state := ElevatorState.movingUp, direction := Direction.up }
      else if nd < e.currentFloor then
        { e with state := ElevatorState.movingDown, direction := Direction.down }
      else
        { e with state := ElevatorState.idle, direction := Direction.idle }

/-- Elevator.addDestination of Elevator.ts. -/
def Elevator.addDestination (e : Elevator) (floor : Int) : Elevator :=
  Elevator.updateDirection { e with destinationFloors := setAdd e.destinationFloors floor }

/-- Elevator.removeDestination of Elevator.ts. -/
def Elevator.removeDestination (e : Elevator) (floor : Int) : Elevator :=
  Elevator.updateDirection
    { e with destinationFloors := e.destinationFloors.filter (fun x => decide (x ≠ floor)) }

/-- Elevator.hasDestination of Elevator.ts. -/
def Elevator.hasDestination (e : Elevator) (floor : Int) : Bool :=
  decide (floor ∈ e.destinationFloors)

/-- Elevator.move of Elevator.ts, returning the moved flag and the new state. -/
def Elevator.move (e : Elevator) : Bool × Elevator :=
  match e.getNextDestination with
  | none => (false, e)
  | some nd =>
    let e1 :=
      if e.currentFloor < nd then { e with currentFloor := e.currentFloor + 1 }
      else if nd < e.currentFloor then { e with currentFloor := e.currentFloor - 1 }
      else e
    let e2 :=
      if e1.currentFloor = nd then e1.removeDestination e1.currentFloor else e1
    (true, e2.updateDirection)

/-- Elevator.canHandleRequest of Elevator.ts. -/
def Elevator.canHandleRequest (e : Elevator) (request : FloorRequest) : Bool :=
  decide (e.state = ElevatorState.idle) ||
  (decide (e.direction = Direction.up) && decide (request.direction = Direction.up) &&
    decide (e.currentFloor ≤ request.floor)) ||
  (decide (e.direction = Direction.down) && decide (request.direction = Direction.down) &&
    decide (request.floor ≤ e.currentFloor))

/-- Elevator.getDistanceToRequest of Elevator.ts: Math.abs of the difference. -/
def Elevator.getDistanceToRequest (e : Elevator) (request : FloorRequest) : Nat :=
  (e.currentFloor - request.floor).natAbs

structure Building where
  floors : List Floor
  elevators : List Elevator
  pendingRequests : List FloorRequest
  totalFloors : Int
  totalElevators : Nat
  deriving DecidableEq, Repr

/-- Constructor of Building.ts: floors 0..n-1 and elevators 0..k-1. -/
def Building.init (n k : Nat) : Building :=
  { floors := (List.range n).map (fun i => ⟨(i : Int), false, false⟩),
    elevators := (List.range k).map Elevator.init,
    pendingRequests := [],
    totalFloors := (n : Int),
    totalElevators := k }

/-- Mutation of the floor object this.floors[n], addressed by its number. -/
def setFloorAt (floors : List Floor) (n : Int) (g : Floor → Floor) : List Floor :=
  floors.map (fun f => if f.number = n then g f else f)

/-- Read access to the floor object this.floors[n]. -/
def findFloorL (floors : List Floor) (n : Int) : Floor :=
  (floors.find? (fun f => decide (f.number = n))).getD ⟨n, false, false⟩

def Building.findFloor (b : Building) (n : Int) : Floor :=
  findFloorL b.floors n

/-- Predicate of Building.removePendingRequest: same floor and direction. -/
def matchesRequest (request r : FloorRequest) : Bool :=
  decide (r.floor = request.floor) && decide (r.direction = request.direction)

/-- Removal of the first list element satisfying p, mirroring
findIndex followed by splice(index, 1). -/
def removeFirst {α : Type} (p : α → Bool) : List α → List α
  | [] => []
  | x :: xs => if p x then xs else x :: removeFirst p xs

/-- Building.removePendingRequest of Building.ts: splice out the first
matching request, then release the button only when no other matching
request remains. -/
def Building.removePendingRequest (b : Building) (request : FloorRequest) : Building :=
  if (removeFirst (matchesRequest request) b.pendingRequests).any (matchesRequest request) then
    { b with pendingRequests := removeFirst (matchesRequest request) b.pendingRequests }
  else
    { b with
      pendingRequests := removeFirst (matchesRequest request) b.pendingRequests,
      floors := setFloorAt b.floors request.floor
        (fun f => if request.direction = Direction.up then f.releaseUpButton
                  else f.releaseDownButton) }

/-- Accumulator step of the reduce inside Building.assignRequestToElevator:
a strictly closer elevator wins, an idle one wins a distance tie against a
non-idle incumbent, and the incumbent stays otherwise. -/
def stepBest (request : FloorRequest) (best current : Elevator) : Elevator :=
  if current.getDistanceToRequest request < best.getDistanceToRequest request then current
  else if current.getDistanceToRequest request = best.getDistanceToRequest request ∧
      current.state = ElevatorState.idle ∧ ¬ best.state = ElevatorState.idle then current
  else best

/-- availableElevators.reduce of Building.ts: the first element seeds the
accumulator and the rest are folded through stepBest. -/
def reduceBest (request : FloorRequest) (e0 : Elevator) (rest : List Elevator) : Elevator :=
  rest.foldl (stepBest request) e0

/-- Mutation bestElevator.addDestination(request.floor) seen through the
elevator array: the elevator object chosen by the reduce is updated in
place, addressed by its id. -/
def assignMap (b : Building) (request : FloorRequest) (best : Elevator) : List Elevator :=
  b.elevators.map
    (fun (e : Elevator) =>
      if e.id = best.id then e.addDestination request.floor else e)

/-- Building.assignRequestToElevator of Building.ts. -/
def Building.assignRequestToElevator (b : Building) (request : FloorRequest) : Building :=
  match b.elevators.filter (fun e => e.canHandleRequest request) with
  | [] => b
  | e0 :: rest =>
    Building.removePendingRequest
      { b with elevators := assignMap b request (reduceBest request e0 rest) } request

/-- Building.requestElevator of Building.ts. -/
def Building.requestElevator (b : Building) (floorNumber : Int) (direction : Direction) :
    Building :=
  if floorNumber < 0 ∨ b.totalFloors ≤ floorNumber then b
  else if floorNumber = 0 ∧ direction = Direction.down then b
  else if floorNumber = b.totalFloors - 1 ∧ direction = Direction.up then b
  else
    Building.assignRequestToElevator
      { b with
        pendingRequests := b.pendingRequests ++ [⟨floorNumber, direction⟩],
        floors := setFloorAt b.floors floorNumber
          (fun f => if direction = Direction.up then f.pressUpButton
                    else f.pressDownButton) }
      ⟨floorNumber, direction⟩

/-- Building.requestElevatorFloor of Building.ts: this.elevators[elevatorId]
is addressed by id (ids coincide with positions at construction), and a
missing elevator makes the call a no-op. -/
def Building.requestElevatorFloor (b : Building) (elevatorId : Nat) (floorNumber : Int) :
    Building :=
  if floorNumber < 0 ∨ b.totalFloors ≤ floorNumber then b
  else
    { b with
      elevators := b.elevators.map
        (fun e => if e.id = elevatorId then e.addDestination floorNumber else e) }

/-- Iteration of this.pendingRequests.forEach(r: assignRequestToElevator r):
the length is captured at loop entry (the fuel), the element at the cursor is
fetched from the live list, and a missing index is skipped. -/
def assignLoop (b : Building) (k : Nat) : Nat → Building
  | 0 => b
  | fuel + 1 =>
    match b.pendingRequests.get? k with
    | none => assignLoop b (k + 1) fuel
    | some r => assignLoop (b.assignRequestToElevator r) (k + 1) fuel

/-- Up-button half of the elevator loop body in Building.checkElevatorArrivals. -/
def checkArrivalsUp (b : Building) (e : Elevator) : Building :=
  if (findFloorL b.floors e.currentFloor).upButtonPressed &&
      decide (e.direction = Direction.up) then
    Building.removePendingRequest
      { b with floors := setFloorAt b.floors e.currentFloor Floor.releaseUpButton }
      ⟨e.currentFloor, Direction.up⟩
  else b

/-- Down-button half of the elevator loop body in Building.checkElevatorArrivals. -/
def checkArrivalsDown (b : Building) (e : Elevator) : Building :=
  if (findFloorL b.floors e.currentFloor).downButtonPressed &&
      decide (e.direction = Direction.down) then
    Building.removePendingRequest
      { b with floors := setFloorAt b.floors e.currentFloor Floor.releaseDownButton }
      ⟨e.currentFloor, Direction.down⟩
  else b

/-- Body of the elevator loop in Building.checkElevatorArrivals: the up
branch runs first, then the down branch reads the then-current state. -/
def checkArrivalsOne (b : Building) (e : Elevator) : Building :=
  checkArrivalsDown (checkArrivalsUp b e) e

/-- Building.checkElevatorArrivals of Building.ts: the elevator list is not
mutated by the loop body, so folding over the entry snapshot is faithful. -/
def Building.checkElevatorArrivals (b : Building) : Building :=
  b.elevators.foldl checkArrivalsOne b

/-- Phase one of Building.update: this.elevators.forEach(e: e.move()). -/
def movePhase (b : Building) : Building :=
  { b with elevators := b.elevators.map (fun (e : Elevator) => e.move.2) }

/-- Building.update of Building.ts: move all elevators, retry the pending
queue in place (the forEach length is captured at loop entry; phase one does
not touch the queue, so it equals the length before the tick), then check
arrivals. -/
def Building.update (b : Building) : Building :=
  Building.checkElevatorArrivals (assignLoop (movePhase b) 0 b.pendingRequests.length)

/-- Reset of one floor: both buttons released. -/
def clearFloor (f : Floor) : Floor :=
  { f with upButtonPressed := false, downButtonPressed := false }

/-- Reset of one elevator: back to floor 0, empty destinations, idle. -/
def resetElevator (e : Elevator) : Elevator :=
  { e with currentFloor := 0, destinationFloors := [],
           state := ElevatorState.idle, direction := Direction.idle }

/-- Building.reset of Building.ts. -/
def Building.reset (b : Building) : Building :=
  { b with
    floors := b.floors.map clearFloor,
    elevators := b.elevators.map resetElevator,
    pendingRequests := [] }

/-- External command surface of the Building, for stating properties over
arbitrary operation sequences. -/
inductive Op where
  | requestElevator (floor : Int) (direction : Direction)
  | requestElevatorFloor (elevatorId : Nat) (floor : Int)
  | update
  | reset
  deriving DecidableEq, Repr

def applyOp (b : Building) : Op → Building
  | Op.requestElevator floor direction => b.requestElevator floor direction
  | Op.requestElevatorFloor elevatorId floor => b.requestElevatorFloor elevatorId floor
  | Op.update => b.update
  | Op.reset => b.reset

def runOps (b : Building) (ops : List Op) : Building :=
  ops.foldl applyOp b

theorem foldl_min_le_init {α : Type} [LinearOrder α] (xs : List α) (a : α) :
    xs.foldl min a ≤ a := by
  induction xs generalizing a with
  | nil => exact le_refl a
  | cons y ys ih =>
    exact le_trans (ih (min a y)) (min_le_left a y)

theorem foldl_min_le_mem {α : Type} [LinearOrder α] (xs : List α) (a : α) :
    ∀ x ∈ xs, xs.foldl min a ≤ x := by
  induction xs generalizing a with
  | nil => intro x hx; cases hx
  | cons y ys ih =>
    intro x hx
    rcases List.mem_cons.mp hx with h | h
    · subst h
      exact le_trans (foldl_min_le_init ys (min a x)) (min_le_right a x)
    · exact ih (min a y) x h

theorem foldl_min_mem {α : Type} [LinearOrder α] (xs : List α) (a : α) :
    xs.foldl min a = a ∨ xs.foldl min a ∈ xs := by
  induction xs generalizing a with
  | nil => exact Or.inl rfl
  | cons y ys ih =>
    rcases ih (min a y) with h | h
    · rcases min_choice a y with hm | hm
      · exact Or.inl (by rw [List.foldl_cons, h, hm])
      · refine Or.inr ?_
        rw [List.foldl_cons, h, hm]
        exact List.mem_cons_self y ys
    · exact Or.inr (List.mem_cons_of_mem y h)

theorem listMin_le {α : Type} [LinearOrder α] {l : List α} {m : α}
    (h : listMin l = some m) : ∀ x ∈ l, m ≤ x := by
  cases l with
  | nil => cases h
  | cons y ys =>
    intro x hx
    have hm : ys.foldl min y = m := by
      simpa [listMin] using h
    rcases List.mem_cons.mp hx with h1 | h1
    · subst h1; rw [← hm]; exact foldl_min_le_init ys x
    · rw [← hm]; exact foldl_min_le_mem ys y x h1

theorem listMin_mem {α : Type} [LinearOrder α] {l : List α} {m : α}
    (h : listMin l = some m) : m ∈ l := by
  cases l with
  | nil => cases h
  | cons y ys =>
    have hm : ys.foldl min y = m := by
      simpa [listMin] using h
    rcases foldl_min_mem ys y with h1 | h1
    · rw [hm] at h1; rw [h1]; exact List.mem_cons_self y ys
    · rw [hm] at h1; exact List.mem_cons_of_mem y h1

theorem listMin_eq_of_le {α : Type} [LinearOrder α] {l : List α} {d : α}
    (hmem : d ∈ l) (hle : ∀ x ∈ l, d ≤ x) : listMin l = some d := by
  cases l with
  | nil => cases hmem
  | cons y ys =>
    have h : listMin (y :: ys) = some (ys.foldl min y) := rfl
    have h1 : ys.foldl min y ≤ d := listMin_le h d hmem
    have h2 : d ≤ ys.foldl min y := hle _ (listMin_mem h)
    rw [h, le_antisymm h1 h2]

theorem foldl_max_le_init {α : Type} [LinearOrder α] (xs : List α) (a : α) :
    a ≤ xs.foldl max a := by
  induction xs generalizing a with
  | nil => exact le_refl a
  | cons y ys ih =>
    exact le_trans (le_max_left a y) (ih (max a y))

theorem foldl_max_le_mem {α : Type} [LinearOrder α] (xs : List α) (a : α) :
    ∀ x ∈ xs, x ≤ xs.foldl max a := by
  induction xs generalizing a with
  | nil => intro x hx; cases hx
  | cons y ys ih =>
    intro x hx
    rcases List.mem_cons.mp hx with h | h
    · subst h
      exact le_trans (le_max_right a x) (foldl_max_le_init ys (max a x))
    · exact ih (max a y) x h

theorem foldl_max_mem {α : Type} [LinearOrder α] (xs : List α) (a : α) :
    xs.foldl max a = a ∨ xs.foldl max a ∈ xs := by
  induction xs generalizing a with
  | nil => exact Or.inl rfl
  | cons y ys ih =>
    rcases ih (max a y) with h | h
    · rcases max_choice a y with hm | hm
      · exact Or.inl (by rw [List.foldl_cons, h, hm])
      · refine Or.inr ?_
        rw [List.foldl_cons, h, hm]
        exact List.mem_cons_self y ys
    · exact Or.inr (List.mem_cons_of_mem y h)

theorem listMax_le {α : Type} [LinearOrder α] {l : List α} {m : α}
    (h : listMax l = some m) : ∀ x ∈ l, x ≤ m := by
  cases l with
  | nil => cases h
  | cons y ys =>
    intro x hx
    have hm : ys.foldl max y = m := by
      simpa [listMax] using h
    rcases List.mem_cons.mp hx with h1 | h1
    · subst h1; rw [← hm]; exact foldl_max_le_init ys x
    · rw [← hm]; exact foldl_max_le_mem ys y x h1

theorem listMax_mem {α : Type} [LinearOrder α] {l : List α} {m : α}
    (h : listMax l = some m) : m ∈ l := by
  cases l with
  | nil => cases h
  | cons y ys =>
    have hm : ys.foldl max y = m := by
      simpa [listMax] using h
    rcases foldl_max_mem ys y with h1 | h1
    · rw [hm] at h1; rw [h1]; exact List.mem_cons_self y ys
    · rw [hm] at h1; exact List.mem_cons_of_mem y h1

theorem listMax_eq_of_le {α : Type} [LinearOrder α] {l : List α} {d : α}
    (hmem : d ∈ l) (hle : ∀ x ∈ l, x ≤ d) : listMax l = some d := by
  cases l with
  | nil => cases hmem
  | cons y ys =>
    have h : listMax (y :: ys) = some (ys.foldl max y) := rfl
    have h1 : d ≤ ys.foldl max y := listMax_le h d hmem
    have h2 : ys.foldl max y ≤ d := hle _ (listMax_mem h)
    rw [h, le_antisymm h2 h1]

theorem mem_setAdd {l : List Int} {f x : Int} :
    x ∈ setAdd l f ↔ x ∈ l ∨ x = f := by
  unfold setAdd
  by_cases h : f ∈ l
  · simp only [if_pos h]
    constructor
    · exact Or.inl
    · rintro (hx | rfl)
      · exact hx
      · exact h
  · simp [if_neg h]

theorem removeFirst_mem {α : Type} {p : α → Bool} {l : List α} {x : α}
    (h : x ∈ removeFirst p l) : x ∈ l := by
  induction l with
  | nil => cases h
  | cons y ys ih =>
    unfold removeFirst at h
    by_cases hp : p y
    · rw [if_pos hp] at h
      exact List.mem_cons_of_mem y h
    · rw [if_neg hp] at h
      rcases List.mem_cons.mp h with h1 | h1
      · exact h1 ▸ List.mem_cons_self y ys
      · exact List.mem_cons_of_mem y (ih h1)

theorem getNextDestination_mem {e : Elevator} {nd : Int}
    (h : e.getNextDestination = some nd) : nd ∈ e.destinationFloors := by
  unfold Elevator.getNextDestination at h
  by_cases hemp : e.destinationFloors.isEmpty
  · rw [if_pos hemp] at h; cases h
  · rw [if_neg hemp] at h
    simp only at h
    revert h
    generalize hv :
      (if e.direction = Direction.up then
        listMin (e.destinationFloors.filter (fun f => decide (e.currentFloor < f)))
      else if e.direction = Direction.down then
        listMax (e.destinationFloors.filter (fun f => decide (f < e.currentFloor)))
      else none) = v
    intro h
    match v, h with
    | some f, h =>
      cases h
      by_cases hup : e.direction = Direction.up
      · rw [if_pos hup] at hv
        exact List.mem_of_mem_filter (listMin_mem hv)
      · rw [if_neg hup] at hv
        by_cases hdown : e.direction = Direction.down
        · rw [if_pos hdown] at hv
          exact List.mem_of_mem_filter (listMax_mem hv)
        · rw [if_neg hdown] at hv; cases hv
    | none, h =>
      exact List.mem_of_mem_head? h

theorem getNextDestination_isSome {e : Elevator}
    (h : e.destinationFloors ≠ []) : ∃ nd, e.getNextDestination = some nd := by
  unfold Elevator.getNextDestination
  have hemp : e.destinationFloors.isEmpty = false := by
    simpa [List.isEmpty_iff] using h
  rw [hemp]
  simp only [Bool.false_eq_true, if_false]
  generalize (if e.direction = Direction.up then
        listMin (e.destinationFloors.filter (fun f => decide (e.currentFloor < f)))
      else if e.direction = Direction.down then
        listMax (e.destinationFloors.filter (fun f => decide (f < e.currentFloor)))
      else none) = v
  match v with
  | some f => exact ⟨f, rfl⟩
  | none =>
    cases hl : e.destinationFloors with
    | nil => exact absurd hl h
    | cons y ys => exact ⟨y, by simp [hl]⟩

theorem updateDirection_currentFloor (e : Elevator) :
    e.updateDirection.currentFloor = e.currentFloor := by
  unfold Elevator.updateDirection
  split
  · rfl
  · split
    · rfl
    · split
      · rfl
      · split <;> rfl

theorem updateDirection_destinationFloors (e : Elevator) :
    e.updateDirection.destinationFloors = e.destinationFloors := by
  unfold Elevator.updateDirection
  split
  · rfl
  · split
    · rfl
    · split
      · rfl
      · split <;> rfl

theorem updateDirection_id (e : Elevator) : e.updateDirection.id = e.id := by
  unfold Elevator.updateDirection
  split
  · rfl
  · split
    · rfl
    · split
      · rfl
      · split <;> rfl

theorem addDestination_currentFloor (e : Elevator) (f : Int) :
    (e.addDestination f).currentFloor = e.currentFloor := by
  unfold Elevator.addDestination
  rw [updateDirection_currentFloor]

theorem addDestination_destinationFloors (e : Elevator) (f : Int) :
    (e.addDestination f).destinationFloors = setAdd e.destinationFloors f := by
  unfold Elevator.addDestination
  rw [updateDirection_destinationFloors]

theorem addDestination_id (e : Elevator) (f : Int) : (e.addDestination f).id = e.id := by
  unfold Elevator.addDestination
  rw [updateDirection_id]

theorem removeDestination_currentFloor (e : Elevator) (f : Int) :
    (e.removeDestination f).currentFloor = e.currentFloor := by
  unfold Elevator.removeDestination
  rw [updateDirection_currentFloor]

theorem removeDestination_destinationFloors (e : Elevator) (f : Int) :
    (e.removeDestination f).destinationFloors =
      e.destinationFloors.filter (fun x => decide (x ≠ f)) := by
  unfold Elevator.removeDestination
  rw [updateDirection_destinationFloors]

theorem removeDestination_id (e : Elevator) (f : Int) :
    (e.removeDestination f).id = e.id := by
  unfold Elevator.removeDestination
  rw [updateDirection_id]

theorem move_id (e : Elevator) : e.move.2.id = e.id := by
  unfold Elevator.move
  split
  · rfl
  · simp only [updateDirection_id]
    repeat' split
    all_goals simp [removeDestination_id]

theorem assign_of_no_available (b : Building) (r : FloorRequest)
    (h : b.elevators.filter (fun e => e.canHandleRequest r) = []) :
    b.assignRequestToElevator r = b := by
  unfold Building.assignRequestToElevator
  rw [h]

theorem move_of_none {e : Elevator} (h : e.getNextDestination = none) :
    e.move = (false, e) := by
  unfold Elevator.move
  rw [h]

theorem move_fst_of_some {e : Elevator} {nd : Int} (h : e.getNextDestination = some nd) :
    e.move.1 = true := by
  unfold Elevator.move
  rw [h]

theorem move_currentFloor_of_some {e : Elevator} {nd : Int}
    (h : e.getNextDestination = some nd) :
    e.move.2.currentFloor =
      (if e.currentFloor < nd then e.currentFloor + 1
       else if nd < e.currentFloor then e.currentFloor - 1
       else e.currentFloor) := by
  unfold Elevator.move
  rw [h]
  simp only [updateDirection_currentFloor]
  by_cases h1 : e.currentFloor < nd
  · simp only [if_pos h1]
    split
    · rw [removeDestination_currentFloor]
    · rfl
  · simp only [if_neg h1]
    by_cases h2 : nd < e.currentFloor
    · simp only [if_pos h2]
      split
      · rw [removeDestination_currentFloor]
      · rfl
    · simp only [if_neg h2]
      split
      · rw [removeDestination_currentFloor]
      · rfl

theorem move_destinationFloors_of_some {e : Elevator} {nd : Int}
    (h : e.getNextDestination = some nd) :
    e.move.2.destinationFloors =
      (if (if e.currentFloor < nd then e.currentFloor + 1
           else if nd < e.currentFloor then e.currentFloor - 1
           else e.currentFloor) = nd then
        e.destinationFloors.filter (fun x => decide (x ≠ nd))
      else e.destinationFloors) := by
  unfold Elevator.move
  rw [h]
  simp only [updateDirection_destinationFloors]
  by_cases h1 : e.currentFloor < nd
  · simp only [if_pos h1]
    by_cases h2 : e.currentFloor + 1 = nd
    · have h3 : ({ e with currentFloor := e.currentFloor + 1 } : Elevator).currentFloor = nd :=
        h2
      rw [if_pos h3, if_pos h2, removeDestination_destinationFloors]
      rw [h2]
    · have h3 : ¬ ({ e with currentFloor := e.currentFloor + 1 } : Elevator).currentFloor =
          nd := h2
      rw [if_neg h3, if_neg h2]
  · simp only [if_neg h1]
    by_cases h2 : nd < e.currentFloor
    · simp only [if_pos h2]
      by_cases h3 : e.currentFloor - 1 = nd
      · have h4 : ({ e with currentFloor := e.currentFloor - 1 } : Elevator).currentFloor =
            nd := h3
        rw [if_pos h4, if_pos h3, removeDestination_destinationFloors]
        rw [h3]
      · have h4 : ¬ ({ e with currentFloor := e.currentFloor - 1 } : Elevator).currentFloor =
            nd := h3
        rw [if_neg h4, if_neg h3]
    · simp only [if_neg h2]
      have h3 : e.currentFloor = nd := le_antisymm (not_lt.mp h2) (not_lt.mp h1)
      rw [if_pos h3, if_pos h3, removeDestination_destinationFloors, h3]

/-- Direction after updateDirection: idle exactly when there is nothing to do
or the selected next destination is the current floor. -/
theorem updateDirection_direction_idle_iff (e : Elevator) :
    e.updateDirection.direction = Direction.idle ↔
      (e.destinationFloors = [] ∨ e.getNextDestination = some e.currentFloor) := by
  unfold Elevator.updateDirection
  by_cases hemp : e.destinationFloors.isEmpty
  · rw [if_pos hemp]
    simp [List.isEmpty_iff.mp hemp]
  · rw [if_neg hemp]
    have hne : e.destinationFloors ≠ [] := by
      simpa [List.isEmpty_iff] using hemp
    rcases getNextDestination_isSome hne with ⟨nd, hnd⟩
    rw [hnd]
    simp only
    by_cases hlt : e.currentFloor < nd
    · rw [if_pos hlt]
      constructor
      · intro h; cases h
      · rintro (h | h)
        · exact absurd h hne
        · injection h with h2
          exact absurd (h2 ▸ hlt) (lt_irrefl _)
    · rw [if_neg hlt]
      by_cases hgt : nd < e.currentFloor
      · rw [if_pos hgt]
        constructor
        · intro h; cases h
        · rintro (h | h)
          · exact absurd h hne
          · injection h with h2
            exact absurd (h2 ▸ hgt) (lt_irrefl _)
      · rw [if_neg hgt]
        have hval : nd = e.currentFloor := le_antisymm (not_lt.mp hlt) (not_lt.mp hgt)
        subst hval
        simp [hnd]

theorem updateDirection_idle_iff_of_not_mem (e : Elevator)
    (h : e.currentFloor ∉ e.destinationFloors) :
    (e.updateDirection.direction = Direction.idle ↔ e.destinationFloors = []) := by
  rw [updateDirection_direction_idle_iff]
  constructor
  · rintro (h1 | h1)
    · exact h1
    · exact absurd (getNextDestination_mem h1) h
  · exact Or.inl

theorem move_snd_eq_updateDirection (e : Elevator) (h : e.destinationFloors ≠ []) :
    ∃ e2 : Elevator, e.move.2 = e2.updateDirection := by
  rcases getNextDestination_isSome h with ⟨nd, hnd⟩
  unfold Elevator.move
  rw [hnd]
  exact ⟨_, rfl⟩

theorem elevator_set_eq_self (e : Elevator) (s : ElevatorState) (d : Direction)
    (hs : e.state = s) (hd : e.direction = d) :
    ({ e with state := s, direction := d } : Elevator) = e := by
  cases e with
  | mk i cf ds st dir =>
    subst hs
    subst hd
    rfl

theorem getNext_up_of_ahead {e : Elevator} (hdir : e.direction = Direction.up)
    {d : Int} (hd : d ∈ e.destinationFloors) (hlt : e.currentFloor < d) :
    ∃ m, e.getNextDestination = some m ∧ e.currentFloor < m := by
  have hfil : d ∈ e.destinationFloors.filter (fun f => decide (e.currentFloor < f)) :=
    List.mem_filter.mpr ⟨hd, by simpa using hlt⟩
  cases hl : e.destinationFloors.filter (fun f => decide (e.currentFloor < f)) with
  | nil => rw [hl] at hfil; cases hfil
  | cons a as =>
    have hm : listMin (e.destinationFloors.filter
        (fun f => decide (e.currentFloor < f))) = some (as.foldl min a) := by
      rw [hl]
      rfl
    have hmm := listMin_mem hm
    have hcf : e.currentFloor < as.foldl min a := by
      simpa using (List.mem_filter.mp hmm).2
    refine ⟨as.foldl min a, ?_, hcf⟩
    have hemp : e.destinationFloors.isEmpty = false := by
      simpa [List.isEmpty_iff] using List.ne_nil_of_mem hd
    unfold Elevator.getNextDestination
    rw [hemp]
    simp only [Bool.false_eq_true, if_false, if_pos hdir]
    rw [hm]

theorem getNext_down_of_behind {e : Elevator} (hdir : e.direction = Direction.down)
    {d : Int} (hd : d ∈ e.destinationFloors) (hlt : d < e.currentFloor) :
    ∃ m, e.getNextDestination = some m ∧ m < e.currentFloor := by
  have hfil : d ∈ e.destinationFloors.filter (fun f => decide (f < e.currentFloor)) :=
    List.mem_filter.mpr ⟨hd, by simpa using hlt⟩
  cases hl : e.destinationFloors.filter (fun f => decide (f < e.currentFloor)) with
  | nil => rw [hl] at hfil; cases hfil
  | cons a as =>
    have hm : listMax (e.destinationFloors.filter
        (fun f => decide (f < e.currentFloor))) = some (as.foldl max a) := by
      rw [hl]
      rfl
    have hmm := listMax_mem hm
    have hcf : as.foldl max a < e.currentFloor := by
      simpa using (List.mem_filter.mp hmm).2
    refine ⟨as.foldl max a, ?_, hcf⟩
    have hemp : e.destinationFloors.isEmpty = false := by
      simpa [List.isEmpty_iff] using List.ne_nil_of_mem hd
    have hup : ¬ e.direction = Direction.up := by
      rw [hdir]
      intro hcontra
      cases hcontra
    unfold Elevator.getNextDestination
    rw [hemp]
    simp only [Bool.false_eq_true, if_false, if_neg hup, if_pos hdir]
    rw [hm]

theorem getNext_eq_cf_head {e : Elevator}
    (h : e.getNextDestination = some e.currentFloor) :
    e.destinationFloors.head? = some e.currentFloor := by
  unfold Elevator.getNextDestination at h
  by_cases hemp : e.destinationFloors.isEmpty
  · rw [if_pos hemp] at h
    cases h
  · rw [if_neg hemp] at h
    simp only at h
    by_cases hup : e.direction = Direction.up
    · rw [if_pos hup] at h
      cases hl : listMin (e.destinationFloors.filter
          (fun f => decide (e.currentFloor < f))) with
      | none =>
        rw [hl] at h
        exact h
      | some m =>
        rw [hl] at h
        have h2 : some m = some e.currentFloor := h
        injection h2 with h3
        have hmm := listMin_mem hl
        have h4 : e.currentFloor < m := by
          simpa using (List.mem_filter.mp hmm).2
        exact absurd (h3 ▸ h4) (lt_irrefl _)
    · rw [if_neg hup] at h
      by_cases hdn : e.direction = Direction.down
      · rw [if_pos hdn] at h
        cases hl : listMax (e.destinationFloors.filter
            (fun f => decide (f < e.currentFloor))) with
        | none =>
          rw [hl] at h
          exact h
        | some m =>
          rw [hl] at h
          have h2 : some m = some e.currentFloor := h
          injection h2 with h3
          have hmm := listMax_mem hl
          have h4 : m < e.currentFloor := by
            simpa using (List.mem_filter.mp hmm).2
          exact absurd (h3 ▸ h4) (lt_irrefl _)
      · rw [if_neg hdn] at h
        exact h

theorem updateDirection_of_empty {e : Elevator} (h : e.destinationFloors = [])
    (hs : e.state = ElevatorState.idle) (hd : e.direction = Direction.idle) :
    e.updateDirection = e := by
  unfold Elevator.updateDirection
  rw [if_pos (by simp [h])]
  exact elevator_set_eq_self e _ _ hs hd

theorem updateDirection_of_up {e : Elevator} (hdir : e.direction = Direction.up)
    (hstate : e.state = ElevatorState.movingUp) {d : Int}
    (hd : d ∈ e.destinationFloors) (hlt : e.currentFloor < d) :
    e.updateDirection = e := by
  rcases getNext_up_of_ahead hdir hd hlt with ⟨m, hm, hcfm⟩
  unfold Elevator.updateDirection
  rw [if_neg (by simpa [List.isEmpty_iff] using List.ne_nil_of_mem hd), hm]
  simp only
  rw [if_pos hcfm]
  exact elevator_set_eq_self e _ _ hstate hdir

theorem updateDirection_of_down {e : Elevator} (hdir : e.direction = Direction.down)
    (hstate : e.state = ElevatorState.movingDown) {d : Int}
    (hd : d ∈ e.destinationFloors) (hlt : d < e.currentFloor) :
    e.updateDirection = e := by
  rcases getNext_down_of_behind hdir hd hlt with ⟨m, hm, hcfm⟩
  unfold Elevator.updateDirection
  rw [if_neg (by simpa [List.isEmpty_iff] using List.ne_nil_of_mem hd), hm]
  simp only
  rw [if_neg (by omega), if_pos hcfm]
  exact elevator_set_eq_self e _ _ hstate hdir

theorem updateDirection_of_idle_head {e : Elevator}
    (hdir : e.direction = Direction.idle) (hstate : e.state = ElevatorState.idle)
    (hne : e.destinationFloors ≠ [])
    (hhead : e.destinationFloors.head? = some e.currentFloor) :
    e.updateDirection = e := by
  have hget : e.getNextDestination = some e.currentFloor := by
    have hup : ¬ e.direction = Direction.up := by
      rw [hdir]
      intro hcontra
      cases hcontra
    have hdn : ¬ e.direction = Direction.down := by
      rw [hdir]
      intro hcontra
      cases hcontra
    unfold Elevator.getNextDestination
    rw [if_neg (by simpa [List.isEmpty_iff] using hne)]
    simp only [if_neg hup, if_neg hdn]
    exact hhead
  unfold Elevator.updateDirection
  rw [if_neg (by simpa [List.isEmpty_iff] using hne), hget]
  simp only
  rw [if_neg (lt_irrefl _), if_neg (lt_irrefl _)]
  exact elevator_set_eq_self e _ _ hstate hdir

/-- Direction recomputation is stable: running updateDirection on its own
output changes nothing, so the direction and state of an updateDirection
result are exactly what recomputing on its floor and destinations yields. -/
theorem updateDirection_stable (e : Elevator) :
    (e.updateDirection).updateDirection = e.updateDirection := by
  by_cases hemp : e.destinationFloors = []
  · have hu : e.updateDirection =
        { e with state := ElevatorState.idle, direction := Direction.idle } := by
      unfold Elevator.updateDirection
      rw [if_pos (by simp [hemp])]
    refine updateDirection_of_empty ?_ ?_ ?_
    · rw [updateDirection_destinationFloors]
      exact hemp
    · rw [hu]
    · rw [hu]
  · rcases getNextDestination_isSome hemp with ⟨nd, hnd⟩
    have hmem := getNextDestination_mem hnd
    have hemp2 : ¬ e.destinationFloors.isEmpty = true := by
      simpa [List.isEmpty_iff] using hemp
    rcases lt_trichotomy e.currentFloor nd with hlt | heq | hgt
    · have hu : e.updateDirection =
          { e with state := ElevatorState.movingUp, direction := Direction.up } := by
        unfold Elevator.updateDirection
        rw [if_neg hemp2, hnd]
        simp only
        rw [if_pos hlt]
      refine updateDirection_of_up (d := nd) ?_ ?_ ?_ ?_
      · rw [hu]
      · rw [hu]
      · rw [updateDirection_destinationFloors]
        exact hmem
      · rw [updateDirection_currentFloor]
        exact hlt
    · have hu : e.updateDirection =
          { e with state := ElevatorState.idle, direction := Direction.idle } := by
        unfold Elevator.updateDirection
        rw [if_neg hemp2, hnd]
        simp only
        rw [if_neg (by omega), if_neg (by omega)]
      have hhead : e.destinationFloors.head? = some e.currentFloor :=
        getNext_eq_cf_head (by rw [hnd, heq])
      refine updateDirection_of_idle_head ?_ ?_ ?_ ?_
      · rw [hu]
      · rw [hu]
      · rw [updateDirection_destinationFloors]
        exact hemp
      · rw [updateDirection_destinationFloors, updateDirection_currentFloor]
        exact hhead
    · have hu : e.updateDirection =
          { e with state := ElevatorState.movingDown, direction := Direction.down } := by
        unfold Elevator.updateDirection
        rw [if_neg hemp2, hnd]
        simp only
        rw [if_neg (by omega), if_pos hgt]
      refine updateDirection_of_down (d := nd) ?_ ?_ ?_ ?_
      · rw [hu]
      · rw [hu]
      · rw [updateDirection_destinationFloors]
        exact hmem
      · rw [updateDirection_currentFloor]
        exact hgt

theorem getNext_none_of_nil {e : Elevator} (h : e.destinationFloors = []) :
    e.getNextDestination = none := by
  unfold Elevator.getNextDestination
  rw [if_pos (by simp [h])]

/-- C8: for every prior building state, requestElevator with a floor outside
the range zero to totalFloors minus one, or with the pair floor zero and
direction DOWN, or the pair top floor and direction UP, returns the building
unchanged: nothing is queued, no button is set, no elevator changes, and the
(total) function raises nothing. -/
theorem claim8_invalid_request_is_noop (b : Building) (floorNumber : Int)
    (direction : Direction)
    (h : (floorNumber < 0 ∨ b.totalFloors ≤ floorNumber) ∨
         (floorNumber = 0 ∧ direction = Direction.down) ∨
         (floorNumber = b.totalFloors - 1 ∧ direction = Direction.up)) :
    b.requestElevator floorNumber direction = b := by
  unfold Building.requestElevator
  rcases h with h | h | h
  · rw [if_pos h]
  · by_cases h1 : floorNumber < 0 ∨ b.totalFloors ≤ floorNumber
    · rw [if_pos h1]
    · rw [if_neg h1, if_pos h]
  · by_cases h1 : floorNumber < 0 ∨ b.totalFloors ≤ floorNumber
    · rw [if_pos h1]
    · rw [if_neg h1]
      by_cases h2 : floorNumber = 0 ∧ direction = Direction.down
      · rw [if_pos h2]
      · rw [if_neg h2, if_pos h]

theorem claim8_invalid_request_is_noop_witness :
    (Building.init 10 4).requestElevator 0 Direction.down = Building.init 10 4 ∧
    (Building.init 10 4).requestElevator 9 Direction.up = Building.init 10 4 ∧
    (Building.init 10 4).requestElevator 12 Direction.up = Building.init 10 4 :=
  ⟨claim8_invalid_request_is_noop (Building.init 10 4) 0 Direction.down
      (Or.inr (Or.inl (by decide))),
   claim8_invalid_request_is_noop (Building.init 10 4) 9 Direction.up
      (Or.inr (Or.inr (by decide))),
   claim8_invalid_request_is_noop (Building.init 10 4) 12 Direction.up
      (Or.inl (by decide))⟩

/-- C1 counterexample: after sending the single elevator of a 10-floor
building up towards floor 5, two consecutive in-range, physically possible
calls requestElevator(2, DOWN) leave two identical outstanding calls in the
pending queue, so the duplicate is not ignored. -/
theorem claim1_counterexample :
    ((((Building.init 10 1).requestElevatorFloor 0 5).requestElevator 2
          Direction.down).requestElevator 2 Direction.down).pendingRequests =
      [⟨2, Direction.down⟩, ⟨2, Direction.down⟩] := by decide

/-- C1 (amended): requestElevator performs no duplicate suppression: every
call that passes validation is appended to the pending queue even when an
identical call is already outstanding; in particular when no elevator can
serve the pair the queue grows by the duplicate. -/
theorem claim1_amended_duplicate_appended (b : Building) (floorNumber : Int)
    (direction : Direction)
    (h1 : ¬ (floorNumber < 0 ∨ b.totalFloors ≤ floorNumber))
    (h2 : ¬ (floorNumber = 0 ∧ direction = Direction.down))
    (h3 : ¬ (floorNumber = b.totalFloors - 1 ∧ direction = Direction.up))
    (h4 : b.elevators.filter
        (fun e => e.canHandleRequest ⟨floorNumber, direction⟩) = []) :
    (b.requestElevator floorNumber direction).pendingRequests =
      b.pendingRequests ++ [⟨floorNumber, direction⟩] := by
  unfold Building.requestElevator
  rw [if_neg h1, if_neg h2, if_neg h3, assign_of_no_available]
  exact h4

theorem claim1_amended_duplicate_appended_witness :
    ((((Building.init 10 1).requestElevatorFloor 0 5).requestElevator 2
          Direction.down).requestElevator 2 Direction.down).pendingRequests =
      (((Building.init 10 1).requestElevatorFloor 0 5).requestElevator 2
          Direction.down).pendingRequests ++ [⟨2, Direction.down⟩] :=
  claim1_amended_duplicate_appended
    (((Building.init 10 1).requestElevatorFloor 0 5).requestElevator 2 Direction.down)
    2 Direction.down (by decide) (by decide) (by decide) (by decide)

/-- C2 counterexample: a car-panel request for the floor the idle elevator is
already on (requestElevatorFloor 0 0 on a fresh building) leaves elevator 0
with direction IDLE and the non-empty destination set containing floor 0, so
the claimed invariant fails after requestElevatorFloor. -/
theorem claim2_counterexample :
    ((Building.init 10 4).requestElevatorFloor 0 0).elevators.head? =
        some ⟨0, 0, [0], ElevatorState.idle, Direction.idle⟩ ∧
    ¬ (Direction.idle = Direction.idle ↔ ([0] : List Int) = []) := by
  constructor
  · decide
  · decide

/-- C2 (amended): after updateDirection (which every mutating elevator
operation ends with), direction is IDLE exactly when the destination set is
empty or the selected next destination equals currentFloor; the claimed
equivalence therefore holds after addDestination, removeDestination and a
move of a busy elevator whenever the resulting currentFloor is not itself
among the remaining destinations. -/
theorem claim2_amended_idle_iff (e : Elevator) (f : Int) :
    (e.updateDirection.direction = Direction.idle ↔
      (e.destinationFloors = [] ∨ e.getNextDestination = some e.currentFloor)) ∧
    (e.currentFloor ∉ (e.addDestination f).destinationFloors →
      ((e.addDestination f).direction = Direction.idle ↔
        (e.addDestination f).destinationFloors = [])) ∧
    (e.currentFloor ∉ (e.removeDestination f).destinationFloors →
      ((e.removeDestination f).direction = Direction.idle ↔
        (e.removeDestination f).destinationFloors = [])) ∧
    (e.destinationFloors ≠ [] →
      e.move.2.currentFloor ∉ e.move.2.destinationFloors →
      (e.move.2.direction = Direction.idle ↔ e.move.2.destinationFloors = [])) := by
  refine ⟨updateDirection_direction_idle_iff e, ?_, ?_, ?_⟩
  · intro h
    unfold Elevator.addDestination at h ⊢
    rw [updateDirection_destinationFloors] at h ⊢
    exact updateDirection_idle_iff_of_not_mem _ h
  · intro h
    unfold Elevator.removeDestination at h ⊢
    rw [updateDirection_destinationFloors] at h ⊢
    exact updateDirection_idle_iff_of_not_mem _ h
  · intro hne h
    rcases move_snd_eq_updateDirection e hne with ⟨e2, he2⟩
    rw [he2] at h ⊢
    rw [updateDirection_currentFloor, updateDirection_destinationFloors] at h
    rw [updateDirection_destinationFloors]
    exact updateDirection_idle_iff_of_not_mem _ h

theorem claim2_amended_idle_iff_witness :
    (((Elevator.init 0).addDestination 4).direction = Direction.idle ↔
      ((Elevator.init 0).addDestination 4).destinationFloors = []) :=
  (claim2_amended_idle_iff (Elevator.init 0) 4).2.1 (by decide)

/-- C4 counterexample: for the elevator produced by addDestination 0 on a
fresh elevator (current floor 0, destination set containing 0), move has a
next destination, yet returns true while currentFloor does not change, so
move does not move by one floor and does not return true exactly when
movement occurred. -/
theorem claim4_counterexample :
    ((Elevator.init 0).addDestination 0).getNextDestination = some 0 ∧
    ((Elevator.init 0).addDestination 0).currentFloor = 0 ∧
    ((Elevator.init 0).addDestination 0).move.1 = true ∧
    ((Elevator.init 0).addDestination 0).move.2.currentFloor = 0 := by
  refine ⟨by decide, by decide, by decide, by decide⟩

/-- C4 (amended): move returns false and changes nothing when there is no
next destination; otherwise it returns true unconditionally, moves
currentFloor one floor toward the next destination when that destination
differs from currentFloor (and not at all when it already equals it),
removes the destination exactly when the resulting currentFloor equals it,
and recomputes direction afterward: the returned elevator is a fixed point
of updateDirection, so its direction and state are exactly what
recomputeDirection yields on the resulting floor and destinations. -/
theorem claim4_amended_move (e : Elevator) :
    (e.getNextDestination = none → e.move = (false, e)) ∧
    (∀ nd : Int, e.getNextDestination = some nd →
      e.move.1 = true ∧
      e.move.2.currentFloor =
        (if e.currentFloor < nd then e.currentFloor + 1
         else if nd < e.currentFloor then e.currentFloor - 1
         else e.currentFloor) ∧
      (e.move.2.currentFloor = nd →
        e.move.2.destinationFloors =
          e.destinationFloors.filter (fun x => decide (x ≠ nd))) ∧
      (e.move.2.currentFloor ≠ nd →
        e.move.2.destinationFloors = e.destinationFloors) ∧
      Elevator.updateDirection e.move.2 = e.move.2) := by
  constructor
  · exact fun h => move_of_none h
  · intro nd hnd
    refine ⟨move_fst_of_some hnd, move_currentFloor_of_some hnd, ?_, ?_, ?_⟩
    · intro hreach
      rw [move_currentFloor_of_some hnd] at hreach
      rw [move_destinationFloors_of_some hnd, if_pos hreach]
    · intro hmiss
      rw [move_currentFloor_of_some hnd] at hmiss
      rw [move_destinationFloors_of_some hnd, if_neg hmiss]
    · have hne : e.destinationFloors ≠ [] := by
        intro hcon
        rw [getNext_none_of_nil hcon] at hnd
        cases hnd
      rcases move_snd_eq_updateDirection e hne with ⟨e2, he2⟩
      rw [he2]
      exact updateDirection_stable e2

theorem claim4_amended_move_witness :
    (⟨0, 3, [5, 7], ElevatorState.movingUp, Direction.up⟩ : Elevator).move.1 = true ∧
    (⟨0, 3, [5, 7], ElevatorState.movingUp, Direction.up⟩ : Elevator).move.2.currentFloor =
      (if (3 : Int) < 5 then (3 : Int) + 1 else if (5 : Int) < 3 then 3 - 1 else 3) :=
  ⟨((claim4_amended_move ⟨0, 3, [5, 7], ElevatorState.movingUp, Direction.up⟩).2 5
      (by decide)).1,
   ((claim4_amended_move ⟨0, 3, [5, 7], ElevatorState.movingUp, Direction.up⟩).2 5
      (by decide)).2.1⟩

/-- C7: when the direction is UP, getNextDestination returns the minimum
destination strictly above currentFloor whenever one exists (and dually for
DOWN), and the concrete elevator at floor 3 moving UP with destinations 5
and 7 reaches and removes 5 before 7 under successive moves. -/
theorem claim7_next_up_min (e : Elevator) (d : Int) :
    (e.direction = Direction.up → d ∈ e.destinationFloors → e.currentFloor < d →
      (∀ x ∈ e.destinationFloors, e.currentFloor < x → d ≤ x) →
      e.getNextDestination = some d) ∧
    (e.direction = Direction.down → d ∈ e.destinationFloors → d < e.currentFloor →
      (∀ x ∈ e.destinationFloors, x < e.currentFloor → x ≤ d) →
      e.getNextDestination = some d) ∧
    ((⟨0, 3, [5, 7], ElevatorState.movingUp, Direction.up⟩ : Elevator).move.2.currentFloor
        = 4 ∧
      (⟨0, 3, [5, 7], ElevatorState.movingUp,
          Direction.up⟩ : Elevator).move.2.move.2.currentFloor = 5 ∧
      (⟨0, 3, [5, 7], ElevatorState.movingUp,
          Direction.up⟩ : Elevator).move.2.move.2.destinationFloors = [7]) := by
  refine ⟨?_, ?_, by decide, by decide, by decide⟩
  · intro hdir hmem hlt hle
    unfold Elevator.getNextDestination
    have hne : e.destinationFloors.isEmpty = false := by
      simp [List.isEmpty_iff]
      exact List.ne_nil_of_mem hmem
    rw [hne]
    simp only [Bool.false_eq_true, if_false, if_pos hdir]
    have hmemf : d ∈ e.destinationFloors.filter (fun f => decide (e.currentFloor < f)) :=
      List.mem_filter.mpr ⟨hmem, by simpa using hlt⟩
    have hlef : ∀ x ∈ e.destinationFloors.filter (fun f => decide (e.currentFloor < f)),
        d ≤ x := by
      intro x hx
      rcases List.mem_filter.mp hx with ⟨hx1, hx2⟩
      exact hle x hx1 (by simpa using hx2)
    rw [listMin_eq_of_le hmemf hlef]
  · intro hdir hmem hlt hle
    unfold Elevator.getNextDestination
    have hne : e.destinationFloors.isEmpty = false := by
      simp [List.isEmpty_iff]
      exact List.ne_nil_of_mem hmem
    rw [hne]
    have hup : ¬ e.direction = Direction.up := by
      rw [hdir]; intro hcontra; cases hcontra
    simp only [Bool.false_eq_true, if_false, if_neg hup, if_pos hdir]
    have hmemf : d ∈ e.destinationFloors.filter (fun f => decide (f < e.currentFloor)) :=
      List.mem_filter.mpr ⟨hmem, by simpa using hlt⟩
    have hlef : ∀ x ∈ e.destinationFloors.filter (fun f => decide (f < e.currentFloor)),
        x ≤ d := by
      intro x hx
      rcases List.mem_filter.mp hx with ⟨hx1, hx2⟩
      exact hle x hx1 (by simpa using hx2)
    rw [listMax_eq_of_le hmemf hlef]

theorem claim7_next_up_min_witness :
    (⟨0, 3, [7, 5], ElevatorState.movingUp, Direction.up⟩ : Elevator).getNextDestination =
      some 5 :=
  (claim7_next_up_min ⟨0, 3, [7, 5], ElevatorState.movingUp, Direction.up⟩ 5).1
    (by decide) (by decide) (by decide) (by decide)


theorem removePendingRequest_pendingRequests (b : Building) (r : FloorRequest) :
    (b.removePendingRequest r).pendingRequests =
      removeFirst (matchesRequest r) b.pendingRequests := by
  unfold Building.removePendingRequest
  split <;> rfl

theorem checkArrivalsUp_of_not_up (b : Building) (e : Elevator)
    (h : e.direction ≠ Direction.up) : checkArrivalsUp b e = b := by
  unfold checkArrivalsUp
  rw [if_neg]
  simp [h]

theorem checkArrivalsDown_of_not_down (b : Building) (e : Elevator)
    (h : e.direction ≠ Direction.down) : checkArrivalsDown b e = b := by
  unfold checkArrivalsDown
  rw [if_neg]
  simp [h]

theorem findFloorL_setFloorAt_down (l : List Floor) (n : Int) (g : Floor → Floor)
    (hg : ∀ f : Floor, (g f).downButtonPressed = false)
    (hgn : ∀ f : Floor, (g f).number = f.number) :
    (findFloorL (setFloorAt l n g) n).downButtonPressed = false := by
  induction l with
  | nil => rfl
  | cons f l ih =>
    unfold setFloorAt at ih ⊢
    unfold findFloorL at ih ⊢
    by_cases h : f.number = n
    · rw [List.map_cons, if_pos h]
      rw [List.find?_cons_of_pos]
      · simp [hg]
      · simp [hgn, h]
    · rw [List.map_cons, if_neg h]
      rw [List.find?_cons_of_neg]
      · exact ih
      · simp [h]

theorem findFloorL_setFloorAt_up (l : List Floor) (n : Int) (g : Floor → Floor)
    (hg : ∀ f : Floor, (g f).upButtonPressed = false)
    (hgn : ∀ f : Floor, (g f).number = f.number) :
    (findFloorL (setFloorAt l n g) n).upButtonPressed = false := by
  induction l with
  | nil => rfl
  | cons f l ih =>
    unfold setFloorAt at ih ⊢
    unfold findFloorL at ih ⊢
    by_cases h : f.number = n
    · rw [List.map_cons, if_pos h]
      rw [List.find?_cons_of_pos]
      · simp [hg]
      · simp [hgn, h]
    · rw [List.map_cons, if_neg h]
      rw [List.find?_cons_of_neg]
      · exact ih
      · simp [h]

/-- C10: in the arrival phase, an active hall button at the elevator's
current floor matching the elevator's direction of travel (UP branch and
DOWN branch alike) is cleared and the first matching queued call removed,
with no condition on membership of that floor in the elevator's
destinationFloors; concretely, in the 10-floor single-elevator building
where the calls (1, DOWN) and (2, DOWN) are queued while the elevator rides
up to its panel destination 2, the second tick consumes the still-queued
(2, DOWN) call although floor 2 is not among the elevator's destinations at
that point (they are exactly [1]). -/
theorem claim10_arrivals_consume_queued (b : Building) (e : Elevator) :
    (e.direction = Direction.up →
      (findFloorL b.floors e.currentFloor).upButtonPressed = true →
      (checkArrivalsOne b e).pendingRequests =
        removeFirst (matchesRequest ⟨e.currentFloor, Direction.up⟩)
          b.pendingRequests ∧
      (findFloorL (checkArrivalsOne b e).floors e.currentFloor).upButtonPressed =
        false) ∧
    (e.direction = Direction.down →
      (findFloorL b.floors e.currentFloor).downButtonPressed = true →
      (checkArrivalsOne b e).pendingRequests =
        removeFirst (matchesRequest ⟨e.currentFloor, Direction.down⟩)
          b.pendingRequests ∧
      (findFloorL (checkArrivalsOne b e).floors e.currentFloor).downButtonPressed =
        false) ∧
    ((((((Building.init 10 1).requestElevatorFloor 0 2).requestElevator 1
            Direction.down).requestElevator 2 Direction.down).update).pendingRequests =
        [⟨1, Direction.down⟩, ⟨2, Direction.down⟩] ∧
      (((((Building.init 10 1).requestElevatorFloor 0 2).requestElevator 1
            Direction.down).requestElevator 2
            Direction.down).update.update).pendingRequests = [] ∧
      ((((((Building.init 10 1).requestElevatorFloor 0 2).requestElevator 1
            Direction.down).requestElevator 2
            Direction.down).update.update).elevators.map
          (fun e => e.destinationFloors)) = [[1]] ∧
      (findFloorL (((((Building.init 10 1).requestElevatorFloor 0 2).requestElevator 1
            Direction.down).requestElevator 2
            Direction.down).update.update).floors 2).downButtonPressed = false) := by
  refine ⟨?_, ?_, by decide, by decide, by decide, by decide⟩
  · intro hdir hbtn
    have hco : checkArrivalsOne b e =
        Building.removePendingRequest
          { b with floors := setFloorAt b.floors e.currentFloor Floor.releaseUpButton }
          ⟨e.currentFloor, Direction.up⟩ := by
      unfold checkArrivalsOne
      have h1 : checkArrivalsUp b e =
          Building.removePendingRequest
            { b with floors := setFloorAt b.floors e.currentFloor Floor.releaseUpButton }
            ⟨e.currentFloor, Direction.up⟩ := by
        unfold checkArrivalsUp
        rw [if_pos]
        simp [hbtn, hdir]
      rw [h1]
      refine checkArrivalsDown_of_not_down _ e ?_
      rw [hdir]
      intro hcontra
      cases hcontra
    constructor
    · rw [hco, removePendingRequest_pendingRequests]
    · rw [hco]
      unfold Building.removePendingRequest
      split
      · exact findFloorL_setFloorAt_up b.floors e.currentFloor Floor.releaseUpButton
          (fun f => rfl) (fun f => rfl)
      · exact findFloorL_setFloorAt_up _ e.currentFloor _
          (fun f => by simp [Floor.releaseUpButton]) (fun f => by
            simp [Floor.releaseUpButton])
  · intro hdir hbtn
    have hco : checkArrivalsOne b e =
        Building.removePendingRequest
          { b with floors := setFloorAt b.floors e.currentFloor Floor.releaseDownButton }
          ⟨e.currentFloor, Direction.down⟩ := by
      unfold checkArrivalsOne
      rw [checkArrivalsUp_of_not_up b e (by simp [hdir])]
      unfold checkArrivalsDown
      rw [if_pos]
      simp [hbtn, hdir]
    constructor
    · rw [hco, removePendingRequest_pendingRequests]
    · rw [hco]
      unfold Building.removePendingRequest
      split
      · exact findFloorL_setFloorAt_down b.floors e.currentFloor Floor.releaseDownButton
          (fun f => rfl) (fun f => rfl)
      · exact findFloorL_setFloorAt_down _ e.currentFloor _
          (fun f => by simp [Floor.releaseDownButton]) (fun f => by
            simp [Floor.releaseDownButton])

theorem claim10_arrivals_consume_queued_witness :
    ((checkArrivalsOne
        { floors := [⟨2, false, true⟩], elevators := [],
          pendingRequests := [⟨2, Direction.down⟩, ⟨5, Direction.up⟩],
          totalFloors := 10, totalElevators := 0 }
        ⟨0, 2, [1], ElevatorState.movingDown, Direction.down⟩).pendingRequests =
      removeFirst (matchesRequest ⟨2, Direction.down⟩)
        [⟨2, Direction.down⟩, ⟨5, Direction.up⟩]) ∧
    ((checkArrivalsOne
        { floors := [⟨4, true, false⟩], elevators := [],
          pendingRequests := [⟨4, Direction.up⟩],
          totalFloors := 10, totalElevators := 0 }
        ⟨0, 4, [6], ElevatorState.movingUp, Direction.up⟩).pendingRequests =
      removeFirst (matchesRequest ⟨4, Direction.up⟩) [⟨4, Direction.up⟩]) :=
  ⟨((claim10_arrivals_consume_queued
      { floors := [⟨2, false, true⟩], elevators := [],
        pendingRequests := [⟨2, Direction.down⟩, ⟨5, Direction.up⟩],
        totalFloors := 10, totalElevators := 0 }
      ⟨0, 2, [1], ElevatorState.movingDown, Direction.down⟩).2.1
      (by decide) (by decide)).1,
   ((claim10_arrivals_consume_queued
      { floors := [⟨4, true, false⟩], elevators := [],
        pendingRequests := [⟨4, Direction.up⟩],
        totalFloors := 10, totalElevators := 0 }
      ⟨0, 4, [6], ElevatorState.movingUp, Direction.up⟩).1
      (by decide) (by decide)).1⟩

/-- Tick as the spec words it, for refinement comparison: phase two attempts
to assign every call still queued at the start of the phase, so it folds the
assignment over the snapshot of the queue taken after phase one instead of
indexing the live array. -/
def specTick (b : Building) : Building :=
  Building.checkElevatorArrivals
    (b.pendingRequests.foldl Building.assignRequestToElevator (movePhase b))

theorem assignLoop_of_fixed (b : Building)
    (h : ∀ r ∈ b.pendingRequests, b.assignRequestToElevator r = b) :
    ∀ (k fuel : Nat), assignLoop b k fuel = b := by
  intro k fuel
  induction fuel generalizing k with
  | zero => rfl
  | succ n ih =>
    unfold assignLoop
    cases hg : b.pendingRequests.get? k with
    | none => exact ih (k + 1)
    | some r =>
      show assignLoop (b.assignRequestToElevator r) (k + 1) n = b
      rw [h r (List.get?_mem hg)]
      exact ih (k + 1)

theorem foldl_assign_of_fixed (b : Building) (l : List FloorRequest)
    (h : ∀ r ∈ l, b.assignRequestToElevator r = b) :
    l.foldl Building.assignRequestToElevator b = b := by
  induction l with
  | nil => rfl
  | cons r rs ih =>
    rw [List.foldl_cons, h r (List.mem_cons_self r rs)]
    exact ih (fun x hx => h x (List.mem_cons_of_mem r hx))

/-- C3 counterexample: in the 10-floor two-elevator building where both
elevators ride up to panel destination 2 while the calls (1, DOWN) and
(3, DOWN) wait in the queue, the second tick assigns (1, DOWN), splices it
out of the live queue, and thereby skips the still-queued (3, DOWN) call in
that same tick, while the spec-worded tick (every still-queued call gets a
tryAssign attempt) assigns both; so phase two of the code does not attempt
every still-queued call. -/
def skipScenario : Building :=
  (((((Building.init 10 2).requestElevatorFloor 0 2).requestElevatorFloor 1
        2).requestElevator 1 Direction.down).requestElevator 3 Direction.down).update

theorem claim3_counterexample :
    skipScenario.update.pendingRequests = [⟨3, Direction.down⟩] ∧
    (specTick skipScenario).pendingRequests = [] := by
  refine ⟨by decide, by decide⟩

/-- C3 (amended): update performs its three phases in the stated order, but
phase two iterates the live queue by index with the length captured at loop
entry, so whenever an assignment removes a call from the queue the call that
shifts into the removed slot receives no tryAssign attempt in that tick;
when no queued call can be assigned after phase one, every queued call is
attempted and the tick coincides with the spec-worded tick. -/
theorem claim3_amended_no_skip_when_unassignable (b : Building)
    (h : ∀ r ∈ b.pendingRequests,
      (movePhase b).elevators.filter (fun e => e.canHandleRequest r) = []) :
    b.update = specTick b := by
  have h1 : ∀ r ∈ (movePhase b).pendingRequests,
      (movePhase b).assignRequestToElevator r = movePhase b :=
    fun r hr => assign_of_no_available _ r (h r hr)
  unfold Building.update specTick
  rw [assignLoop_of_fixed _ h1,
    foldl_assign_of_fixed (movePhase b) b.pendingRequests (fun r hr => h1 r hr)]

theorem claim3_amended_no_skip_when_unassignable_witness :
    (((Building.init 10 1).requestElevatorFloor 0 2).requestElevator 1
        Direction.down).update =
      specTick (((Building.init 10 1).requestElevatorFloor 0 2).requestElevator 1
        Direction.down) :=
  claim3_amended_no_skip_when_unassignable
    (((Building.init 10 1).requestElevatorFloor 0 2).requestElevator 1 Direction.down)
    (by decide)


/-- Distance value minimized by the reduce in assignRequestToElevator. -/
def minDistVal (request : FloorRequest) (e0 : Elevator) (rest : List Elevator) : Nat :=
  (listMin ((e0 :: rest).map (fun e => e.getDistanceToRequest request))).getD 0

/-- Candidate test of the spec: at minimal distance and idle. -/
def pIdleMin (request : FloorRequest) (d : Nat) (e : Elevator) : Bool :=
  decide (e.getDistanceToRequest request = d) && decide (e.state = ElevatorState.idle)

/-- Candidate test of the spec: at minimal distance. -/
def pMin (request : FloorRequest) (d : Nat) (e : Elevator) : Bool :=
  decide (e.getDistanceToRequest request = d)

/-- Selection rule as the spec words it: among the available elevators take
the one at minimal distance, preferring an idle one when distances tie, and
the first encountered otherwise. -/
def bestSpec (request : FloorRequest) (e0 : Elevator) (rest : List Elevator) : Elevator :=
  match (e0 :: rest).find? (pIdleMin request (minDistVal request e0 rest)) with
  | some e => e
  | none =>
    ((e0 :: rest).find? (pMin request (minDistVal request e0 rest))).getD e0

theorem minDist_le (request : FloorRequest) (e0 : Elevator) (rest : List Elevator) :
    ∀ e ∈ e0 :: rest, minDistVal request e0 rest ≤ e.getDistanceToRequest request := by
  intro e he
  obtain ⟨m, hm⟩ : ∃ m, listMin ((e0 :: rest).map
      (fun e => e.getDistanceToRequest request)) = some m := ⟨_, rfl⟩
  unfold minDistVal
  rw [hm, Option.getD_some]
  exact listMin_le hm _ (List.mem_map_of_mem _ he)

theorem minDist_attained (request : FloorRequest) (e0 : Elevator) (rest : List Elevator) :
    ∃ e ∈ e0 :: rest, e.getDistanceToRequest request = minDistVal request e0 rest := by
  obtain ⟨m, hm⟩ : ∃ m, listMin ((e0 :: rest).map
      (fun e => e.getDistanceToRequest request)) = some m := ⟨_, rfl⟩
  have hmem := listMin_mem hm
  rcases List.mem_map.mp hmem with ⟨e, he, hde⟩
  refine ⟨e, he, ?_⟩
  unfold minDistVal
  rw [hm, Option.getD_some, hde]

theorem minDist_concat (request : FloorRequest) (e0 x : Elevator) (rest : List Elevator) :
    minDistVal request e0 (rest ++ [x]) =
      min (minDistVal request e0 rest) (x.getDistanceToRequest request) := by
  unfold minDistVal
  simp [listMin, List.foldl_append]

theorem find?_pMin_isSome (request : FloorRequest) (e0 : Elevator) (rest : List Elevator) :
    ((e0 :: rest).find? (pMin request (minDistVal request e0 rest))).isSome := by
  rcases minDist_attained request e0 rest with ⟨e, he, hde⟩
  exact List.find?_isSome.mpr ⟨e, he, by simp [pMin, hde]⟩

theorem bestSpec_dist (request : FloorRequest) (e0 : Elevator) (rest : List Elevator) :
    (bestSpec request e0 rest).getDistanceToRequest request = minDistVal request e0 rest := by
  unfold bestSpec
  cases hfi : (e0 :: rest).find? (pIdleMin request (minDistVal request e0 rest)) with
  | some e =>
    have := List.find?_some hfi
    simp only [pIdleMin, Bool.and_eq_true, decide_eq_true_eq] at this
    exact this.1
  | none =>
    obtain ⟨m, hm⟩ := Option.isSome_iff_exists.mp (find?_pMin_isSome request e0 rest)
    rw [hm, Option.getD_some]
    have := List.find?_some hm
    simpa [pMin] using this

theorem bestSpec_not_idle_of_none (request : FloorRequest) (e0 : Elevator)
    (rest : List Elevator)
    (hfi : (e0 :: rest).find? (pIdleMin request (minDistVal request e0 rest)) = none) :
    ¬ (bestSpec request e0 rest).state = ElevatorState.idle := by
  intro hidle
  obtain ⟨m, hm⟩ := Option.isSome_iff_exists.mp (find?_pMin_isSome request e0 rest)
  have hb : bestSpec request e0 rest = m := by
    unfold bestSpec
    rw [hfi, hm, Option.getD_some]
  have hmm := List.mem_of_find?_eq_some hm
  have hpm := List.find?_some hm
  have hnp := List.find?_eq_none.mp hfi m hmm
  rw [hb] at hidle
  refine hnp ?_
  simp only [pIdleMin, Bool.and_eq_true, decide_eq_true_eq]
  exact ⟨by simpa [pMin] using hpm, hidle⟩


theorem bestSpec_nil (request : FloorRequest) (e0 : Elevator) :
    bestSpec request e0 [] = e0 := by
  unfold bestSpec
  by_cases hxi : e0.state = ElevatorState.idle
  · rw [List.find?_cons_of_pos _ (by simp [pIdleMin, minDistVal, listMin, hxi])]
  · rw [List.find?_cons_of_neg _ (by simp [pIdleMin, hxi])]
    rw [List.find?_cons_of_pos _ (by simp [pMin, minDistVal, listMin])]
    rfl

theorem bestSpec_concat (request : FloorRequest) (e0 x : Elevator) (rest : List Elevator) :
    bestSpec request e0 (rest ++ [x]) = stepBest request (bestSpec request e0 rest) x := by
  have hmd := minDist_concat request e0 x rest
  by_cases hlt : x.getDistanceToRequest request < minDistVal request e0 rest
  · have hmin : min (minDistVal request e0 rest) (x.getDistanceToRequest request) =
        x.getDistanceToRequest request := min_eq_right (le_of_lt hlt)
    have hnone_idle : (e0 :: rest).find?
        (pIdleMin request (x.getDistanceToRequest request)) = none := by
      rw [List.find?_eq_none]
      intro e he h
      simp only [pIdleMin, Bool.and_eq_true, decide_eq_true_eq] at h
      have hge := minDist_le request e0 rest e he
      omega
    have hnone_min : (e0 :: rest).find?
        (pMin request (x.getDistanceToRequest request)) = none := by
      rw [List.find?_eq_none]
      intro e he h
      simp only [pMin, decide_eq_true_eq] at h
      have hge := minDist_le request e0 rest e he
      omega
    have hLHS : bestSpec request e0 (rest ++ [x]) = x := by
      unfold bestSpec
      rw [show e0 :: (rest ++ [x]) = (e0 :: rest) ++ [x] from rfl, hmd, hmin,
          List.find?_append, hnone_idle, Option.none_or]
      by_cases hxi : x.state = ElevatorState.idle
      · rw [List.find?_cons_of_pos _ (by simp [pIdleMin, hxi])]
      · rw [List.find?_cons_of_neg _ (by simp [pIdleMin, hxi])]
        rw [List.find?_nil, List.find?_append, hnone_min, Option.none_or]
        rw [List.find?_cons_of_pos _ (by simp [pMin])]
        rfl
    have hRHS : stepBest request (bestSpec request e0 rest) x = x := by
      unfold stepBest
      rw [bestSpec_dist, if_pos hlt]
    rw [hLHS, hRHS]
  · by_cases heq : x.getDistanceToRequest request = minDistVal request e0 rest
    · have hmin : min (minDistVal request e0 rest) (x.getDistanceToRequest request) =
          minDistVal request e0 rest := by omega
      cases hfi : (e0 :: rest).find? (pIdleMin request (minDistVal request e0 rest)) with
      | some e =>
        have hb : bestSpec request e0 rest = e := by
          unfold bestSpec
          rw [hfi]
        have hprop := List.find?_some hfi
        simp only [pIdleMin, Bool.and_eq_true, decide_eq_true_eq] at hprop
        have hLHS : bestSpec request e0 (rest ++ [x]) = e := by
          unfold bestSpec
          rw [show e0 :: (rest ++ [x]) = (e0 :: rest) ++ [x] from rfl, hmd, hmin,
              List.find?_append, hfi]
          rfl
        have hRHS : stepBest request (bestSpec request e0 rest) x = e := by
          unfold stepBest
          rw [bestSpec_dist, if_neg (by omega), if_neg, hb]
          rintro ⟨h1, h2, h3⟩
          rw [hb] at h3
          exact h3 hprop.2
        rw [hLHS, hRHS]
      | none =>
        have hnb := bestSpec_not_idle_of_none request e0 rest hfi
        obtain ⟨m, hm⟩ := Option.isSome_iff_exists.mp (find?_pMin_isSome request e0 rest)
        have hb : bestSpec request e0 rest = m := by
          unfold bestSpec
          rw [hfi, hm, Option.getD_some]
        by_cases hxi : x.state = ElevatorState.idle
        · have hLHS : bestSpec request e0 (rest ++ [x]) = x := by
            unfold bestSpec
            rw [show e0 :: (rest ++ [x]) = (e0 :: rest) ++ [x] from rfl, hmd, hmin,
                List.find?_append, hfi, Option.none_or]
            rw [List.find?_cons_of_pos _ (by simp [pIdleMin, hxi, heq])]
          have hRHS : stepBest request (bestSpec request e0 rest) x = x := by
            unfold stepBest
            rw [bestSpec_dist, if_neg (by omega), if_pos ⟨heq, hxi, hnb⟩]
          rw [hLHS, hRHS]
        · have hLHS : bestSpec request e0 (rest ++ [x]) = m := by
            unfold bestSpec
            rw [show e0 :: (rest ++ [x]) = (e0 :: rest) ++ [x] from rfl, hmd, hmin,
                List.find?_append, hfi, Option.none_or]
            rw [List.find?_cons_of_neg _ (by simp [pIdleMin, hxi])]
            rw [List.find?_nil, List.find?_append, hm]
            rfl
          have hRHS : stepBest request (bestSpec request e0 rest) x = m := by
            unfold stepBest
            rw [bestSpec_dist, if_neg (by omega), if_neg, hb]
            rintro ⟨h1, h2, h3⟩
            exact hxi h2
          rw [hLHS, hRHS]
    · have hgt : minDistVal request e0 rest < x.getDistanceToRequest request := by omega
      have hmin : min (minDistVal request e0 rest) (x.getDistanceToRequest request) =
          minDistVal request e0 rest := min_eq_left (le_of_lt hgt)
      cases hfi : (e0 :: rest).find? (pIdleMin request (minDistVal request e0 rest)) with
      | some e =>
        have hb : bestSpec request e0 rest = e := by
          unfold bestSpec
          rw [hfi]
        have hLHS : bestSpec request e0 (rest ++ [x]) = e := by
          unfold bestSpec
          rw [show e0 :: (rest ++ [x]) = (e0 :: rest) ++ [x] from rfl, hmd, hmin,
              List.find?_append, hfi]
          rfl
        have hRHS : stepBest request (bestSpec request e0 rest) x = e := by
          unfold stepBest
          rw [bestSpec_dist, if_neg (by omega), if_neg, hb]
          rintro ⟨h1, h2, h3⟩
          omega
        rw [hLHS, hRHS]
      | none =>
        obtain ⟨m, hm⟩ := Option.isSome_iff_exists.mp (find?_pMin_isSome request e0 rest)
        have hb : bestSpec request e0 rest = m := by
          unfold bestSpec
          rw [hfi, hm, Option.getD_some]
        have hLHS : bestSpec request e0 (rest ++ [x]) = m := by
          unfold bestSpec
          rw [show e0 :: (rest ++ [x]) = (e0 :: rest) ++ [x] from rfl, hmd, hmin,
              List.find?_append, hfi, Option.none_or]
          rw [List.find?_cons_of_neg _ (by simp [pIdleMin]; omega)]
          rw [List.find?_nil, List.find?_append, hm]
          rfl
        have hRHS : stepBest request (bestSpec request e0 rest) x = m := by
          unfold stepBest
          rw [bestSpec_dist, if_neg (by omega), if_neg, hb]
          rintro ⟨h1, h2, h3⟩
          omega
        rw [hLHS, hRHS]

theorem reduceBest_eq_bestSpec (request : FloorRequest) (e0 : Elevator)
    (rest : List Elevator) : reduceBest request e0 rest = bestSpec request e0 rest := by
  induction rest using List.reverseRecOn with
  | nil => rw [bestSpec_nil]; rfl
  | append_singleton l x ih =>
    unfold reduceBest at ih ⊢
    rw [List.foldl_append, List.foldl_cons, List.foldl_nil, ih, bestSpec_concat]


/-- C5: tryAssign considers exactly the elevators whose canServe test
succeeds (idle in state, or moving UP with an UP call at or above the
current floor, or moving DOWN with a DOWN call at or below it); with no such
elevator the call stays queued and the building is unchanged, and otherwise
the call floor is added to the destinations of the elevator at minimal
distance, an idle elevator beating a moving one at equal distance and the
first-encountered elevator winning remaining ties. -/
theorem claim5_tryAssign_selection (b : Building) (r : FloorRequest) :
    (∀ e : Elevator, e.canHandleRequest r = true ↔
      (e.state = ElevatorState.idle ∨
        (e.direction = Direction.up ∧ r.direction = Direction.up ∧
          e.currentFloor ≤ r.floor) ∨
        (e.direction = Direction.down ∧ r.direction = Direction.down ∧
          r.floor ≤ e.currentFloor))) ∧
    (b.elevators.filter (fun e => e.canHandleRequest r) = [] →
      b.assignRequestToElevator r = b) ∧
    (∀ (e0 : Elevator) (rest : List Elevator),
      b.elevators.filter (fun e => e.canHandleRequest r) = e0 :: rest →
      reduceBest r e0 rest = bestSpec r e0 rest ∧
      b.assignRequestToElevator r =
        Building.removePendingRequest
          { b with elevators := assignMap b r (bestSpec r e0 rest) } r) := by
  refine ⟨?_, assign_of_no_available b r, ?_⟩
  · intro e
    simp only [Elevator.canHandleRequest, Bool.or_eq_true, Bool.and_eq_true,
      decide_eq_true_eq]
    tauto
  · intro e0 rest hf
    refine ⟨reduceBest_eq_bestSpec r e0 rest, ?_⟩
    unfold Building.assignRequestToElevator
    rw [hf]
    show Building.removePendingRequest
        { b with elevators := assignMap b r (reduceBest r e0 rest) } r = _
    rw [reduceBest_eq_bestSpec]

theorem claim5_tryAssign_selection_witness :
    ((Building.init 10 1).requestElevatorFloor 0 5).assignRequestToElevator
        ⟨1, Direction.down⟩ =
      (Building.init 10 1).requestElevatorFloor 0 5 :=
  (claim5_tryAssign_selection ((Building.init 10 1).requestElevatorFloor 0 5)
      ⟨1, Direction.down⟩).2.1 (by decide)


/-- Bounds test of the invariant: the floor index lies in the building. -/
def floorInRange (n x : Int) : Bool :=
  decide (0 ≤ x) && decide (x < n)

/-- Bounds invariant of one elevator: current floor and all destinations lie
in the building. -/
def elevatorOk (n : Int) (e : Elevator) : Bool :=
  floorInRange n e.currentFloor && e.destinationFloors.all (floorInRange n)

/-- Bounds invariant of the building: every elevator is in bounds and every
queued call names an in-range floor. -/
def buildingOk (b : Building) : Bool :=
  b.elevators.all (elevatorOk b.totalFloors) &&
  b.pendingRequests.all (fun r => floorInRange b.totalFloors r.floor)

theorem floorInRange_iff {n x : Int} : floorInRange n x = true ↔ (0 ≤ x ∧ x < n) := by
  simp [floorInRange]

theorem elevatorOk_iff {n : Int} {e : Elevator} :
    elevatorOk n e = true ↔
      ((0 ≤ e.currentFloor ∧ e.currentFloor < n) ∧
        ∀ x ∈ e.destinationFloors, 0 ≤ x ∧ x < n) := by
  simp [elevatorOk, floorInRange, List.all_eq_true]

theorem buildingOk_iff {b : Building} :
    buildingOk b = true ↔
      ((∀ e ∈ b.elevators, elevatorOk b.totalFloors e = true) ∧
        ∀ r ∈ b.pendingRequests, 0 ≤ r.floor ∧ r.floor < b.totalFloors) := by
  simp [buildingOk, floorInRange, List.all_eq_true]

theorem elevatorOk_addDestination {n : Int} {e : Elevator} {f : Int}
    (he : elevatorOk n e = true) (hf : 0 ≤ f ∧ f < n) :
    elevatorOk n (e.addDestination f) = true := by
  rw [elevatorOk_iff] at he ⊢
  rw [addDestination_currentFloor, addDestination_destinationFloors]
  refine ⟨he.1, ?_⟩
  intro x hx
  rcases mem_setAdd.mp hx with h | h
  · exact he.2 x h
  · exact h ▸ hf

theorem elevatorOk_move {n : Int} {e : Elevator} (he : elevatorOk n e = true) :
    elevatorOk n e.move.2 = true := by
  cases hg : e.getNextDestination with
  | none => rw [move_of_none hg]; exact he
  | some nd =>
    have hndm := getNextDestination_mem hg
    rw [elevatorOk_iff] at he ⊢
    have hnd := he.2 nd hndm
    constructor
    · rw [move_currentFloor_of_some hg]
      rcases he.1 with ⟨hc0, hcn⟩
      split
      · omega
      · split <;> omega
    · intro x hx
      rw [move_destinationFloors_of_some hg] at hx
      by_cases hc : (if e.currentFloor < nd then e.currentFloor + 1
          else if nd < e.currentFloor then e.currentFloor - 1
          else e.currentFloor) = nd
      · rw [if_pos hc] at hx
        exact he.2 x (List.mem_of_mem_filter hx)
      · rw [if_neg hc] at hx
        exact he.2 x hx

theorem move_natAbs_le_one (e : Elevator) :
    (e.move.2.currentFloor - e.currentFloor).natAbs ≤ 1 := by
  cases hg : e.getNextDestination with
  | none => rw [move_of_none hg]; simp
  | some nd =>
    rw [move_currentFloor_of_some hg]
    split
    · omega
    · split <;> omega


theorem assign_cases (b : Building) (r : FloorRequest) :
    b.assignRequestToElevator r = b ∨
    ∃ e0 rest, b.elevators.filter (fun e => e.canHandleRequest r) = e0 :: rest ∧
      b.assignRequestToElevator r =
        Building.removePendingRequest
          { b with elevators := assignMap b r (reduceBest r e0 rest) } r := by
  cases hfl : b.elevators.filter (fun e => e.canHandleRequest r) with
  | nil => exact Or.inl (assign_of_no_available b r hfl)
  | cons e0 rest =>
    refine Or.inr ⟨e0, rest, rfl, ?_⟩
    unfold Building.assignRequestToElevator
    rw [hfl]

theorem removePendingRequest_totalFloors (b : Building) (r : FloorRequest) :
    (b.removePendingRequest r).totalFloors = b.totalFloors := by
  unfold Building.removePendingRequest
  split <;> rfl

theorem removePendingRequest_elevators (b : Building) (r : FloorRequest) :
    (b.removePendingRequest r).elevators = b.elevators := by
  unfold Building.removePendingRequest
  split <;> rfl

theorem removePendingRequest_buildingOk (b : Building) (r : FloorRequest)
    (h : buildingOk b = true) : buildingOk (b.removePendingRequest r) = true := by
  rcases buildingOk_iff.mp h with ⟨h1, h2⟩
  unfold Building.removePendingRequest
  split
  · exact buildingOk_iff.mpr ⟨fun e he => h1 e he, fun q hq => h2 q (removeFirst_mem hq)⟩
  · exact buildingOk_iff.mpr ⟨fun e he => h1 e he, fun q hq => h2 q (removeFirst_mem hq)⟩

theorem assign_totalFloors (b : Building) (r : FloorRequest) :
    (b.assignRequestToElevator r).totalFloors = b.totalFloors := by
  rcases assign_cases b r with h | ⟨e0, rest, hfl, h⟩
  · rw [h]
  · rw [h, removePendingRequest_totalFloors]

theorem assign_buildingOk (b : Building) (r : FloorRequest)
    (h : buildingOk b = true) (hr : 0 ≤ r.floor ∧ r.floor < b.totalFloors) :
    buildingOk (b.assignRequestToElevator r) = true := by
  rcases assign_cases b r with heq | ⟨e0, rest, hfl, heq⟩
  · rw [heq]; exact h
  · rw [heq]
    refine removePendingRequest_buildingOk _ _ ?_
    rcases buildingOk_iff.mp h with ⟨h1, h2⟩
    refine buildingOk_iff.mpr ⟨?_, fun q hq => h2 q hq⟩
    intro e he
    rcases List.mem_map.mp he with ⟨e1, he1, hval⟩
    subst hval
    by_cases hid : e1.id = (reduceBest r e0 rest).id
    · rw [if_pos hid]
      exact elevatorOk_addDestination (h1 e1 he1) hr
    · rw [if_neg hid]
      exact h1 e1 he1

theorem requestElevator_totalFloors (b : Building) (fl : Int) (dir : Direction) :
    (b.requestElevator fl dir).totalFloors = b.totalFloors := by
  unfold Building.requestElevator
  split
  · rfl
  · split
    · rfl
    · split
      · rfl
      · rw [assign_totalFloors]

theorem requestElevator_buildingOk (b : Building) (fl : Int) (dir : Direction)
    (h : buildingOk b = true) : buildingOk (b.requestElevator fl dir) = true := by
  unfold Building.requestElevator
  split
  · exact h
  · split
    · exact h
    · split
      · exact h
      · rename_i h1 h2 h3
        have hfl : 0 ≤ fl ∧ fl < b.totalFloors := by
          push_neg at h1
          omega
        refine assign_buildingOk _ _ ?_ hfl
        rcases buildingOk_iff.mp h with ⟨hball, hpall⟩
        refine buildingOk_iff.mpr ⟨fun e he => hball e he, ?_⟩
        intro q hq
        rcases List.mem_append.mp hq with hq | hq
        · exact hpall q hq
        · rcases List.mem_singleton.mp hq with rfl
          exact hfl

theorem requestElevatorFloor_totalFloors (b : Building) (i : Nat) (fl : Int) :
    (b.requestElevatorFloor i fl).totalFloors = b.totalFloors := by
  unfold Building.requestElevatorFloor
  split <;> rfl

theorem requestElevatorFloor_buildingOk (b : Building) (i : Nat) (fl : Int)
    (h : buildingOk b = true) : buildingOk (b.requestElevatorFloor i fl) = true := by
  unfold Building.requestElevatorFloor
  split
  · exact h
  · rename_i h1
    have hfl : 0 ≤ fl ∧ fl < b.totalFloors := by
      push_neg at h1
      omega
    rcases buildingOk_iff.mp h with ⟨hball, hpall⟩
    refine buildingOk_iff.mpr ⟨?_, fun q hq => hpall q hq⟩
    intro e he
    rcases List.mem_map.mp he with ⟨e1, he1, hval⟩
    subst hval
    by_cases hid : e1.id = i
    · rw [if_pos hid]
      exact elevatorOk_addDestination (hball e1 he1) hfl
    · rw [if_neg hid]
      exact hball e1 he1

theorem movePhase_buildingOk (b : Building) (h : buildingOk b = true) :
    buildingOk (movePhase b) = true := by
  rcases buildingOk_iff.mp h with ⟨hball, hpall⟩
  refine buildingOk_iff.mpr ⟨?_, fun q hq => hpall q hq⟩
  intro e he
  rcases List.mem_map.mp he with ⟨e1, he1, hval⟩
  subst hval
  exact elevatorOk_move (hball e1 he1)

theorem assignLoop_totalFloors (fuel : Nat) :
    ∀ (b : Building) (k : Nat), (assignLoop b k fuel).totalFloors = b.totalFloors := by
  induction fuel with
  | zero => intro b k; rfl
  | succ n ih =>
    intro b k
    unfold assignLoop
    cases hg : b.pendingRequests.get? k with
    | none => exact ih b (k + 1)
    | some r =>
      show (assignLoop (b.assignRequestToElevator r) (k + 1) n).totalFloors = _
      rw [ih, assign_totalFloors]

theorem assignLoop_buildingOk (fuel : Nat) :
    ∀ (b : Building) (k : Nat), buildingOk b = true →
      buildingOk (assignLoop b k fuel) = true := by
  induction fuel with
  | zero => intro b k h; exact h
  | succ n ih =>
    intro b k h
    unfold assignLoop
    cases hg : b.pendingRequests.get? k with
    | none => exact ih b (k + 1) h
    | some r =>
      show buildingOk (assignLoop (b.assignRequestToElevator r) (k + 1) n) = true
      refine ih _ (k + 1) ?_
      refine assign_buildingOk b r h ?_
      exact (buildingOk_iff.mp h).2 r (List.get?_mem hg)

theorem checkArrivalsUp_totalFloors (b : Building) (e : Elevator) :
    (checkArrivalsUp b e).totalFloors = b.totalFloors := by
  unfold checkArrivalsUp
  split
  · rw [removePendingRequest_totalFloors]
  · rfl

theorem checkArrivalsDown_totalFloors (b : Building) (e : Elevator) :
    (checkArrivalsDown b e).totalFloors = b.totalFloors := by
  unfold checkArrivalsDown
  split
  · rw [removePendingRequest_totalFloors]
  · rfl

theorem checkArrivalsUp_buildingOk (b : Building) (e : Elevator)
    (h : buildingOk b = true) : buildingOk (checkArrivalsUp b e) = true := by
  unfold checkArrivalsUp
  split
  · exact removePendingRequest_buildingOk _ _ h
  · exact h

theorem checkArrivalsDown_buildingOk (b : Building) (e : Elevator)
    (h : buildingOk b = true) : buildingOk (checkArrivalsDown b e) = true := by
  unfold checkArrivalsDown
  split
  · exact removePendingRequest_buildingOk _ _ h
  · exact h

theorem arrivalsFold_totalFloors (es : List Elevator) :
    ∀ b : Building, (es.foldl checkArrivalsOne b).totalFloors = b.totalFloors := by
  induction es with
  | nil => intro b; rfl
  | cons e es ih =>
    intro b
    rw [List.foldl_cons, ih]
    unfold checkArrivalsOne
    rw [checkArrivalsDown_totalFloors, checkArrivalsUp_totalFloors]

theorem arrivalsFold_buildingOk (es : List Elevator) :
    ∀ b : Building, buildingOk b = true →
      buildingOk (es.foldl checkArrivalsOne b) = true := by
  induction es with
  | nil => intro b h; exact h
  | cons e es ih =>
    intro b h
    rw [List.foldl_cons]
    refine ih _ ?_
    exact checkArrivalsDown_buildingOk _ _ (checkArrivalsUp_buildingOk _ _ h)

theorem update_totalFloors (b : Building) : b.update.totalFloors = b.totalFloors := by
  unfold Building.update Building.checkElevatorArrivals
  rw [arrivalsFold_totalFloors, assignLoop_totalFloors]
  rfl

theorem update_buildingOk (b : Building) (h : buildingOk b = true) :
    buildingOk b.update = true := by
  unfold Building.update Building.checkElevatorArrivals
  refine arrivalsFold_buildingOk _ _ ?_
  exact assignLoop_buildingOk _ _ _ (movePhase_buildingOk b h)

theorem reset_totalFloors (b : Building) : b.reset.totalFloors = b.totalFloors := rfl

theorem reset_buildingOk (b : Building) (hn : 1 ≤ b.totalFloors) :
    buildingOk b.reset = true := by
  refine buildingOk_iff.mpr ⟨?_, ?_⟩
  · intro e he
    rcases List.mem_map.mp he with ⟨e1, he1, hval⟩
    subst hval
    refine elevatorOk_iff.mpr ⟨?_, ?_⟩
    · exact ⟨le_refl 0, hn⟩
    · intro x hx
      cases hx
  · intro r hr
    cases hr

theorem applyOp_totalFloors (b : Building) (op : Op) :
    (applyOp b op).totalFloors = b.totalFloors := by
  cases op with
  | requestElevator fl dir => exact requestElevator_totalFloors b fl dir
  | requestElevatorFloor i fl => exact requestElevatorFloor_totalFloors b i fl
  | update => exact update_totalFloors b
  | reset => exact reset_totalFloors b

theorem applyOp_buildingOk (b : Building) (op : Op) (hn : 1 ≤ b.totalFloors)
    (h : buildingOk b = true) : buildingOk (applyOp b op) = true := by
  cases op with
  | requestElevator fl dir => exact requestElevator_buildingOk b fl dir h
  | requestElevatorFloor i fl => exact requestElevatorFloor_buildingOk b i fl h
  | update => exact update_buildingOk b h
  | reset => exact reset_buildingOk b hn

theorem runOps_buildingOk (ops : List Op) :
    ∀ b : Building, 1 ≤ b.totalFloors → buildingOk b = true →
      buildingOk (runOps b ops) = true ∧ (runOps b ops).totalFloors = b.totalFloors := by
  induction ops with
  | nil => intro b hn h; exact ⟨h, rfl⟩
  | cons op ops ih =>
    intro b hn h
    unfold runOps at ih ⊢
    rw [List.foldl_cons]
    have htf := applyOp_totalFloors b op
    rcases ih (applyOp b op) (by omega) (applyOp_buildingOk b op hn h) with ⟨h1, h2⟩
    exact ⟨h1, by omega⟩

theorem init_buildingOk (n k : Nat) (hn : 1 ≤ n) :
    buildingOk (Building.init n k) = true := by
  refine buildingOk_iff.mpr ⟨?_, ?_⟩
  · intro e he
    rcases List.mem_map.mp he with ⟨i, hi, hval⟩
    subst hval
    refine elevatorOk_iff.mpr ⟨?_, ?_⟩
    · constructor
      · exact le_refl 0
      · show (0 : Int) < (n : Int)
        exact_mod_cast hn
    · intro x hx
      cases hx
  · intro r hr
    cases hr


/-- C6: starting from initialization of a building with at least one floor,
any sequence of operations keeps every elevator's current floor inside the
range zero to totalFloors minus one (destinations and queued calls are
validated in bounds before insertion), and a single move never changes the
current floor by more than one. -/
theorem claim6_bounds (n k : Nat) (ops : List Op) (hn : 1 ≤ n) :
    ((runOps (Building.init n k) ops).elevators.all
        (fun e => floorInRange (n : Int) e.currentFloor) = true) ∧
    (∀ e ∈ (runOps (Building.init n k) ops).elevators,
        0 ≤ e.currentFloor ∧ e.currentFloor < (n : Int)) ∧
    (∀ e : Elevator, (e.move.2.currentFloor - e.currentFloor).natAbs ≤ 1) := by
  have hn1 : (1 : Int) ≤ (Building.init n k).totalFloors := by
    show (1 : Int) ≤ (n : Int)
    exact_mod_cast hn
  rcases runOps_buildingOk ops (Building.init n k) hn1 (init_buildingOk n k hn) with
    ⟨hok, htf⟩
  have hmem : ∀ e ∈ (runOps (Building.init n k) ops).elevators,
      0 ≤ e.currentFloor ∧ e.currentFloor < (n : Int) := by
    intro e he
    have h1 := (buildingOk_iff.mp hok).1 e he
    have h2 := (elevatorOk_iff.mp h1).1
    rw [htf] at h2
    exact h2
  refine ⟨?_, hmem, fun e => move_natAbs_le_one e⟩
  rw [List.all_eq_true]
  intro e he
  rw [floorInRange_iff]
  exact hmem e he

theorem claim6_bounds_witness :
    (runOps (Building.init 10 4)
        [Op.requestElevatorFloor 0 5, Op.requestElevator 2 Direction.down, Op.update,
          Op.update, Op.update, Op.requestElevator 7 Direction.up, Op.update,
          Op.reset, Op.requestElevatorFloor 1 9, Op.update]).elevators.all
      (fun e => floorInRange (10 : Int) e.currentFloor) = true :=
  (claim6_bounds 10 4
      [Op.requestElevatorFloor 0 5, Op.requestElevator 2 Direction.down, Op.update,
        Op.update, Op.update, Op.requestElevator 7 Direction.up, Op.update,
        Op.reset, Op.requestElevatorFloor 1 9, Op.update] (by decide)).1


/-- Structural skeleton agreement: same floor numbers, elevator ids and
sizes; the part of the state reset cannot change. -/
def skelEq (b1 b2 : Building) : Prop :=
  b1.floors.map Floor.number = b2.floors.map Floor.number ∧
  b1.elevators.map Elevator.id = b2.elevators.map Elevator.id ∧
  b1.totalFloors = b2.totalFloors ∧ b1.totalElevators = b2.totalElevators

theorem skelEq_refl (b : Building) : skelEq b b := ⟨rfl, rfl, rfl, rfl⟩

theorem skelEq_trans {b1 b2 b3 : Building} (h1 : skelEq b1 b2) (h2 : skelEq b2 b3) :
    skelEq b1 b3 :=
  ⟨h1.1.trans h2.1, h1.2.1.trans h2.2.1, h1.2.2.1.trans h2.2.2.1,
    h1.2.2.2.trans h2.2.2.2⟩

theorem mapE_id_preserving (F : Elevator → Elevator) (hF : ∀ e, (F e).id = e.id)
    (l : List Elevator) : (l.map F).map Elevator.id = l.map Elevator.id := by
  induction l with
  | nil => rfl
  | cons e l ih =>
    simp only [List.map_cons]
    rw [hF e, ih]

theorem mapF_number_preserving (G : Floor → Floor)
    (hG : ∀ f, (G f).number = f.number) (l : List Floor) :
    (l.map G).map Floor.number = l.map Floor.number := by
  induction l with
  | nil => rfl
  | cons f l ih =>
    simp only [List.map_cons]
    rw [hG f, ih]

theorem setFloorAt_floorNumbers (l : List Floor) (n : Int) (g : Floor → Floor)
    (hg : ∀ f, (g f).number = f.number) :
    (setFloorAt l n g).map Floor.number = l.map Floor.number := by
  unfold setFloorAt
  refine mapF_number_preserving _ ?_ l
  intro f
  split
  · exact hg f
  · rfl

theorem removePendingRequest_skelEq (b : Building) (r : FloorRequest) :
    skelEq (b.removePendingRequest r) b := by
  unfold Building.removePendingRequest
  split
  · exact ⟨rfl, rfl, rfl, rfl⟩
  · refine ⟨?_, rfl, rfl, rfl⟩
    refine setFloorAt_floorNumbers _ _ _ ?_
    intro f
    split <;> rfl

theorem assignMap_ids (b : Building) (r : FloorRequest) (best : Elevator) :
    (assignMap b r best).map Elevator.id = b.elevators.map Elevator.id := by
  unfold assignMap
  refine mapE_id_preserving _ ?_ b.elevators
  intro e
  split
  · rw [addDestination_id]
  · rfl

theorem assign_skelEq (b : Building) (r : FloorRequest) :
    skelEq (b.assignRequestToElevator r) b := by
  rcases assign_cases b r with heq | ⟨e0, rest, hfl, heq⟩
  · rw [heq]; exact skelEq_refl b
  · rw [heq]
    refine skelEq_trans (removePendingRequest_skelEq _ r) ?_
    exact ⟨rfl, assignMap_ids b r _, rfl, rfl⟩

theorem requestElevator_skelEq (b : Building) (fl : Int) (dir : Direction) :
    skelEq (b.requestElevator fl dir) b := by
  unfold Building.requestElevator
  split
  · exact skelEq_refl b
  · split
    · exact skelEq_refl b
    · split
      · exact skelEq_refl b
      · refine skelEq_trans (assign_skelEq _ _) ?_
        refine ⟨?_, rfl, rfl, rfl⟩
        refine setFloorAt_floorNumbers _ _ _ ?_
        intro f
        split
        · exact pressUpButton_number f
        · exact pressDownButton_number f

theorem requestElevatorFloor_skelEq (b : Building) (i : Nat) (fl : Int) :
    skelEq (b.requestElevatorFloor i fl) b := by
  unfold Building.requestElevatorFloor
  split
  · exact skelEq_refl b
  · refine ⟨rfl, ?_, rfl, rfl⟩
    refine mapE_id_preserving _ ?_ b.elevators
    intro e
    split
    · rw [addDestination_id]
    · rfl

theorem movePhase_skelEq (b : Building) : skelEq (movePhase b) b := by
  refine ⟨rfl, ?_, rfl, rfl⟩
  exact mapE_id_preserving _ move_id b.elevators

theorem assignLoop_skelEq (fuel : Nat) :
    ∀ (b : Building) (k : Nat), skelEq (assignLoop b k fuel) b := by
  induction fuel with
  | zero => intro b k; exact skelEq_refl b
  | succ m ih =>
    intro b k
    unfold assignLoop
    cases hg : b.pendingRequests.get? k with
    | none => exact ih b (k + 1)
    | some r =>
      show skelEq (assignLoop (b.assignRequestToElevator r) (k + 1) m) b
      exact skelEq_trans (ih _ (k + 1)) (assign_skelEq b r)

theorem checkArrivalsUp_skelEq (b : Building) (e : Elevator) :
    skelEq (checkArrivalsUp b e) b := by
  unfold checkArrivalsUp
  split
  · refine skelEq_trans (removePendingRequest_skelEq _ _) ?_
    refine ⟨?_, rfl, rfl, rfl⟩
    exact setFloorAt_floorNumbers _ _ _ (fun f => rfl)
  · exact skelEq_refl b

theorem checkArrivalsDown_skelEq (b : Building) (e : Elevator) :
    skelEq (checkArrivalsDown b e) b := by
  unfold checkArrivalsDown
  split
  · refine skelEq_trans (removePendingRequest_skelEq _ _) ?_
    refine ⟨?_, rfl, rfl, rfl⟩
    exact setFloorAt_floorNumbers _ _ _ (fun f => rfl)
  · exact skelEq_refl b

theorem arrivalsFold_skelEq (es : List Elevator) :
    ∀ b : Building, skelEq (es.foldl checkArrivalsOne b) b := by
  induction es with
  | nil => intro b; exact skelEq_refl b
  | cons e es ih =>
    intro b
    rw [List.foldl_cons]
    refine skelEq_trans (ih _) ?_
    exact skelEq_trans (checkArrivalsDown_skelEq _ e) (checkArrivalsUp_skelEq b e)

theorem update_skelEq (b : Building) : skelEq b.update b := by
  unfold Building.update Building.checkElevatorArrivals
  refine skelEq_trans (arrivalsFold_skelEq _ _) ?_
  exact skelEq_trans (assignLoop_skelEq _ _ _) (movePhase_skelEq b)

theorem reset_skelEq (b : Building) : skelEq b.reset b := by
  refine ⟨?_, ?_, rfl, rfl⟩
  · exact mapF_number_preserving clearFloor (fun f => rfl) b.floors
  · exact mapE_id_preserving resetElevator (fun e => rfl) b.elevators

theorem applyOp_skelEq (b : Building) (op : Op) : skelEq (applyOp b op) b := by
  cases op with
  | requestElevator fl dir => exact requestElevator_skelEq b fl dir
  | requestElevatorFloor i fl => exact requestElevatorFloor_skelEq b i fl
  | update => exact update_skelEq b
  | reset => exact reset_skelEq b

theorem runOps_skelEq (ops : List Op) :
    ∀ b : Building, skelEq (runOps b ops) b := by
  induction ops with
  | nil => intro b; exact skelEq_refl b
  | cons op ops ih =>
    intro b
    unfold runOps at ih ⊢
    rw [List.foldl_cons]
    exact skelEq_trans (ih _) (applyOp_skelEq b op)

theorem buildingExt (b1 b2 : Building) (h1 : b1.floors = b2.floors)
    (h2 : b1.elevators = b2.elevators) (h3 : b1.pendingRequests = b2.pendingRequests)
    (h4 : b1.totalFloors = b2.totalFloors) (h5 : b1.totalElevators = b2.totalElevators) :
    b1 = b2 := by
  cases b1 with
  | mk f1 e1 p1 t1 k1 =>
    cases b2 with
    | mk f2 e2 p2 t2 k2 =>
      simp only [Building.mk.injEq]
      exact ⟨h1, h2, h3, h4, h5⟩

theorem reset_eq_init (n k : Nat) (b : Building)
    (h : skelEq b (Building.init n k)) : b.reset = Building.init n k := by
  rcases h with ⟨hf, he, htf, hte⟩
  have e1 : b.reset.floors = (Building.init n k).floors := by
    show b.floors.map clearFloor = _
    have e0 : b.floors.map clearFloor =
        (b.floors.map Floor.number).map (fun i => (⟨i, false, false⟩ : Floor)) := by
      rw [List.map_map]
      rfl
    rw [e0, hf]
    show ((((List.range n).map (fun i => (⟨(i : Int), false, false⟩ : Floor))).map
        Floor.number).map (fun i => (⟨i, false, false⟩ : Floor))) = _
    simp only [List.map_map]
    rfl
  have e2 : b.reset.elevators = (Building.init n k).elevators := by
    show b.elevators.map resetElevator = _
    have e0 : b.elevators.map resetElevator =
        (b.elevators.map Elevator.id).map Elevator.init := by
      rw [List.map_map]
      rfl
    rw [e0, he]
    show ((((List.range k).map Elevator.init).map Elevator.id).map Elevator.init) = _
    simp only [List.map_map]
    rfl
  exact buildingExt _ _ e1 e2 rfl htf hte

/-- C9: after any prior history of operations from initialization, reset
restores the exact initial building value: every elevator back at floor 0
with no destinations and IDLE direction and state, every button cleared, the
queue empty; every subsequent query therefore observes the initial state. -/
theorem claim9_reset_restores_initial (n k : Nat) (ops : List Op) :
    (runOps (Building.init n k) ops).reset = Building.init n k := by
  refine reset_eq_init n k _ ?_
  exact runOps_skelEq ops (Building.init n k)


end Elev
